import Mathlib

/-!
# Minesweeper board engine (src/script.js)

A shallow embedding of the `Minesweeper` class of `src/script.js`.

* The grid `this.gameBoard` (an array of `rows` arrays of `cols` numbers) is represented by its
  index function `Nat → Nat → Int`; the code only ever reads or writes indices that its own
  loop bounds and range guards keep inside `rows × cols`.
* The DOM cells created by `createBoard` carry the class marks `revealed` and `flagged`; they are
  represented by two index functions `Nat → Nat → Bool`. The classes `mine`, `exploded` and the
  text content of a cell are display only and are never read back by the code.
* `Math.floor(Math.random() * this.rows)` and `Math.floor(Math.random() * this.cols)` are
  represented by an explicit list of already floored draws `(row, col)` that `placeMines` consumes.
* `setInterval` / `clearInterval` are represented by the handle `timerInterval` (non-null or null)
  together with the number of repeating callbacks alive in the environment.
* The recursion of `revealCell` is given a recursion-depth budget (`fuel`).
-/

namespace Minesweeper

/-- Names of the three presets of `this.difficulties`. -/
inductive Difficulty where
  | easy
  | medium
  | hard
  deriving DecidableEq, Repr

/-- One entry `{ rows, cols, mines }` of `this.difficulties`. -/
structure Config where
  rows : Nat
  cols : Nat
  mines : Nat
  deriving DecidableEq, Repr

/-- The table `this.difficulties` of the constructor. -/
def difficulties : Difficulty → Config
  | .easy => { rows := 6, cols := 6, mines := 4 }
  | .medium => { rows := 16, cols := 16, mines := 40 }
  | .hard => { rows := 16, cols := 30, mines := 99 }

/-- Values of `this.gameState` as listed by the source: waiting, playing, won, lost. -/
inductive GameState where
  | waiting
  | playing
  | won
  | lost
  deriving DecidableEq, Repr

end Minesweeper

/-- The instance fields of the class `Minesweeper` together with the class marks of the cells. -/
structure Minesweeper where
  currentDifficulty : Minesweeper.Difficulty
  gameBoard : Nat → Nat → Int
  gameState : Minesweeper.GameState
  timerInterval : Bool
  activeIntervals : Nat
  firstClick : Bool
  rows : Nat
  cols : Nat
  mineCount : Nat
  flaggedCount : Int
  revealed : Nat → Nat → Bool
  flagged : Nat → Nat → Bool

namespace Minesweeper

/-- Assignment `grid[row][col] = v` on an index function. -/
def setCell {α : Type} (grid : Nat → Nat → α) (row col : Nat) (v : α) : Nat → Nat → α :=
  fun r c => if r = row ∧ c = col then v else grid r c

/-- Method `updateMineCount`: the number written to the mine counter display. -/
def updateMineCount (s : Minesweeper) : Int :=
  (s.mineCount : Int) - s.flaggedCount

/-- Method `createBoard`: reads the preset, resets the flag counter, allocates the all-zero grid
and recreates every cell with the bare class `cell`. -/
def createBoard (s : Minesweeper) : Minesweeper :=
  let config := difficulties s.currentDifficulty
  { s with
    rows := config.rows
    cols := config.cols
    mineCount := config.mines
    flaggedCount := 0
    gameBoard := fun _ _ => 0
    revealed := fun _ _ => false
    flagged := fun _ _ => false }

/-- The constructor of the class: field defaults followed by `createBoard`. -/
def new : Minesweeper :=
  createBoard
    { currentDifficulty := .easy
      gameBoard := fun _ _ => 0
      gameState := .waiting
      timerInterval := false
      activeIntervals := 0
      firstClick := true
      rows := 0
      cols := 0
      mineCount := 0
      flaggedCount := 0
      revealed := fun _ _ => false
      flagged := fun _ _ => false }

/-- Method `startTimer`: `setInterval` creates one more repeating callback and its handle is
stored in `timerInterval`. -/
def startTimer (s : Minesweeper) : Minesweeper :=
  { s with timerInterval := true, activeIntervals := s.activeIntervals + 1 }

/-- Method `stopTimer`: clears the stored handle when there is one. -/
def stopTimer (s : Minesweeper) : Minesweeper :=
  if s.timerInterval then
    { s with timerInterval := false, activeIntervals := s.activeIntervals - 1 }
  else s

/-- The values `-1, 0, 1` of the loop variables `i` and `j`. -/
def offsets : List Int := [-1, 0, 1]

/-- Method `countAdjacentMines`: the double loop over `i, j` in `-1..1` counting the in-range
positions `(row + i, col + j)` whose grid value is `-1`. -/
def countAdjacentMines (s : Minesweeper) (row col : Nat) : Int :=
  offsets.foldl (fun count i =>
    offsets.foldl (fun count j =>
      let newRow : Int := (row : Int) + i
      let newCol : Int := (col : Int) + j
      if newRow ≥ 0 ∧ newRow < s.rows ∧ newCol ≥ 0 ∧ newCol < s.cols ∧
          s.gameBoard newRow.toNat newCol.toNat = -1 then count + 1 else count) count) 0

/-- The `while (minesPlaced < config.mines)` loop of `placeMines`, one draw per iteration; the
result is `none` when the draws run out before the loop exits. -/
def placeMinesLoop (mines excludeRow excludeCol : Nat) :
    List (Nat × Nat) → Nat → Minesweeper → Option Minesweeper
  | [], minesPlaced, s => if minesPlaced < mines then none else some s
  | (row, col) :: draws, minesPlaced, s =>
    if minesPlaced < mines then
      if (row = excludeRow ∧ col = excludeCol) ∨ s.gameBoard row col = -1 then
        placeMinesLoop mines excludeRow excludeCol draws minesPlaced s
      else
        placeMinesLoop mines excludeRow excludeCol draws (minesPlaced + 1)
          { s with gameBoard := setCell s.gameBoard row col (-1) }
    else some s

/-- The second pass of `placeMines`: every cell that is not `-1` is overwritten, in row-major
order and in place, by `countAdjacentMines` of the grid as it is at that moment. -/
def fillNumbers (s : Minesweeper) : Minesweeper :=
  (List.range s.rows).foldl (fun s row =>
    (List.range s.cols).foldl (fun s col =>
      if s.gameBoard row col ≠ -1 then
        { s with gameBoard := setCell s.gameBoard row col (countAdjacentMines s row col) }
      else s) s) s

/-- Method `placeMines`: the placement loop followed by the number pass. -/
def placeMines (s : Minesweeper) (draws : List (Nat × Nat)) (excludeRow excludeCol : Nat) :
    Option Minesweeper :=
  let config := difficulties s.currentDifficulty
  (placeMinesLoop config.mines excludeRow excludeCol draws 0 s).map fillNumbers

/-- Method `revealAllMines`: every `-1` cell that is not flagged gets the mark `revealed`. -/
def revealAllMines (s : Minesweeper) : Minesweeper :=
  (List.range s.rows).foldl (fun s row =>
    (List.range s.cols).foldl (fun s col =>
      if s.gameBoard row col = -1 then
        if ¬ s.flagged row col then
          { s with revealed := setCell s.revealed row col true }
        else s
      else s) s) s

/-- Method `gameWon`. -/
def gameWon (s : Minesweeper) : Minesweeper :=
  revealAllMines (stopTimer { s with gameState := .won })

/-- Method `gameOver`. -/
def gameOver (s : Minesweeper) : Minesweeper :=
  revealAllMines (stopTimer { s with gameState := .lost })

/-- The counting loop of `checkWin`: the number of cells carrying the mark `revealed`. -/
def revealedCount (s : Minesweeper) : Nat :=
  (List.range s.rows).foldl (fun revealedCount row =>
    (List.range s.cols).foldl (fun revealedCount col =>
      if s.revealed row col then revealedCount + 1 else revealedCount) revealedCount) 0

/-- Method `checkWin`. -/
def checkWin (s : Minesweeper) : Minesweeper :=
  let totalCells : Int := (s.rows : Int) * s.cols
  if (revealedCount s : Int) = totalCells - s.mineCount then gameWon s else s

/-- Method `revealAdjacentCells`, with the method it calls back (`revealCell`) as a parameter. -/
def revealAdjacentCells (reveal : Minesweeper → Nat → Nat → Option Minesweeper)
    (s : Minesweeper) (row col : Nat) : Option Minesweeper :=
  offsets.foldlM (fun s i =>
    offsets.foldlM (fun s j =>
      let newRow : Int := (row : Int) + i
      let newCol : Int := (col : Int) + j
      if newRow ≥ 0 ∧ newRow < s.rows ∧ newCol ≥ 0 ∧ newCol < s.cols then
        if ¬ s.revealed newRow.toNat newCol.toNat then reveal s newRow.toNat newCol.toNat
        else some s
      else some s) s) s

/-- Method `revealCell`; `fuel` bounds the depth of the recursion through
`revealAdjacentCells`, and the result is `none` when that budget is exhausted. -/
def revealCell : Nat → Minesweeper → Nat → Nat → Option Minesweeper
  | 0, _, _, _ => none
  | fuel + 1, s, row, col =>
    if s.revealed row col then some s
    else
      let s := { s with revealed := setCell s.revealed row col true }
      if s.gameBoard row col = -1 then some (gameOver s)
      else
        let mineCount := s.gameBoard row col
        if mineCount > 0 then some (checkWin s)
        else (revealAdjacentCells (revealCell fuel) s row col).map checkWin

/-- Recursion-depth budget handed to `revealCell` by the click handler: one level per cell of the
grid, plus the outermost call. -/
def revealFuel (s : Minesweeper) : Nat := s.rows * s.cols + 1

/-- Method `handleCellClick` for a click on the cell with `data-row = row`, `data-col = col`;
`draws` are the random draws available to `placeMines` should this be the first click. -/
def handleCellClick (s : Minesweeper) (draws : List (Nat × Nat)) (row col : Nat) :
    Option Minesweeper :=
  if s.gameState = .won ∨ s.gameState = .lost then some s
  else if s.flagged row col then some s
  else if s.firstClick then
    (placeMines s draws row col).bind fun s =>
      let s := startTimer { s with firstClick := false }
      revealCell (revealFuel s) s row col
  else revealCell (revealFuel s) s row col

/-- Method `handleRightClick` for a right click on the cell `(row, col)`. -/
def handleRightClick (s : Minesweeper) (row col : Nat) : Minesweeper :=
  if s.gameState = .won ∨ s.gameState = .lost then s
  else if s.revealed row col then s
  else if s.flagged row col then
    { s with flagged := setCell s.flagged row col false, flaggedCount := s.flaggedCount - 1 }
  else
    { s with flagged := setCell s.flagged row col true, flaggedCount := s.flaggedCount + 1 }

/-- Method `newGame`. -/
def newGame (s : Minesweeper) : Minesweeper :=
  createBoard (stopTimer { s with gameState := .waiting, firstClick := true, flaggedCount := 0 })

/-- The click handler of a difficulty button: stores the preset and calls `newGame`. -/
def selectDifficulty (s : Minesweeper) (d : Difficulty) : Minesweeper :=
  newGame { s with currentDifficulty := d }


/-- The positions of the grid, as a finite set. -/
def gridCells (s : Minesweeper) : Finset (Nat × Nat) :=
  Finset.range s.rows ×ˢ Finset.range s.cols

/-- The positions of the grid holding `-1`. -/
def mineCells (s : Minesweeper) : Finset (Nat × Nat) :=
  (gridCells s).filter fun p => s.gameBoard p.1 p.2 = -1

/-- The random draws are floored products with `rows` and `cols`, hence grid positions. -/
def DrawsInGrid (s : Minesweeper) (draws : List (Nat × Nat)) : Prop :=
  ∀ d ∈ draws, d.1 < s.rows ∧ d.2 < s.cols

instance (s : Minesweeper) (draws : List (Nat × Nat)) : Decidable (DrawsInGrid s draws) := by
  unfold DrawsInGrid; infer_instance

/-- Two states that differ at most in the grid values. -/
structure SameButBoard (s t : Minesweeper) : Prop where
  currentDifficulty : t.currentDifficulty = s.currentDifficulty
  gameState : t.gameState = s.gameState
  timerInterval : t.timerInterval = s.timerInterval
  activeIntervals : t.activeIntervals = s.activeIntervals
  firstClick : t.firstClick = s.firstClick
  rows : t.rows = s.rows
  cols : t.cols = s.cols
  mineCount : t.mineCount = s.mineCount
  flaggedCount : t.flaggedCount = s.flaggedCount
  revealed : t.revealed = s.revealed
  flagged : t.flagged = s.flagged

/-- The guard of the inner loop body of `countAdjacentMines` at offsets `(i, j)`. -/
def AdjacentMineAt (s : Minesweeper) (row col : Nat) (i j : Int) : Prop :=
  (row : Int) + i ≥ 0 ∧ (row : Int) + i < s.rows ∧ (col : Int) + j ≥ 0 ∧ (col : Int) + j < s.cols ∧
    s.gameBoard ((row : Int) + i).toNat ((col : Int) + j).toNat = -1

instance (s : Minesweeper) (row col : Nat) (i j : Int) :
    Decidable (AdjacentMineAt s row col i j) := by
  unfold AdjacentMineAt; infer_instance

/-- The offsets `-1, 0, 1` as a finite set. -/
def offsetSet : Finset Int := {-1, 0, 1}

/-- The body of the inner loop of the number pass of `placeMines`. -/
def fillNumbersStep (s : Minesweeper) (row col : Nat) : Minesweeper :=
  if s.gameBoard row col ≠ -1 then
    { s with gameBoard := setCell s.gameBoard row col (countAdjacentMines s row col) }
  else s

/-- The body of the inner loop of `revealAllMines`. -/
def revealAllMinesStep (s : Minesweeper) (row col : Nat) : Minesweeper :=
  if s.gameBoard row col = -1 then
    if ¬ s.flagged row col then
      { s with revealed := setCell s.revealed row col true }
    else s
  else s

/-- What a run of the number pass over a list of positions guarantees. -/
structure FillResult (ps : List (Nat × Nat)) (s t : Minesweeper) : Prop where
  same : SameButBoard s t
  mines : ∀ r c, t.gameBoard r c = -1 ↔ s.gameBoard r c = -1
  untouched : ∀ r c, (r, c) ∉ ps → t.gameBoard r c = s.gameBoard r c
  filled : ∀ r c, (r, c) ∈ ps → s.gameBoard r c ≠ -1 →
    t.gameBoard r c = countAdjacentMines s r c

/-- Chebyshev distance between two grid positions. -/
def chebyshev (r c r' c' : Nat) : Nat :=
  max ((r : Int) - r').natAbs ((c : Int) - c').natAbs

/-- The brute-force adjacency count of the specification: the number of grid positions at
Chebyshev distance 1 from `(r, c)` that hold a mine. -/
def neighbourMineCount (s : Minesweeper) (r c : Nat) : Nat :=
  ((gridCells s).filter fun p => chebyshev r c p.1 p.2 = 1 ∧ s.gameBoard p.1 p.2 = -1).card

/-- The invariant of the data model: every non-mine grid cell stores the brute-force adjacency
count of the specification. -/
def CountsExact (s : Minesweeper) : Prop :=
  ∀ r c, r < s.rows → c < s.cols → s.gameBoard r c ≠ -1 →
    s.gameBoard r c = (neighbourMineCount s r c : Int)

/-- The grid positions whose cell does not carry the mark `revealed`. -/
def hiddenCells (s : Minesweeper) : Finset (Nat × Nat) :=
  (gridCells s).filter fun p => s.revealed p.1 p.2 = false

/-- The grid positions whose cell carries the mark `revealed`. -/
def revealedCells (s : Minesweeper) : Finset (Nat × Nat) :=
  (gridCells s).filter fun p => s.revealed p.1 p.2 = true

/-- The grid positions that do not hold a mine. -/
def safeCells (s : Minesweeper) : Finset (Nat × Nat) :=
  (gridCells s).filter fun p => s.gameBoard p.1 p.2 ≠ -1

/-- The grid positions that do not hold a mine and whose cell carries the mark `revealed`. -/
def revealedSafeCells (s : Minesweeper) : Finset (Nat × Nat) :=
  (safeCells s).filter fun p => s.revealed p.1 p.2 = true

/-- No mine cell of the grid carries the mark `revealed`. -/
def NoMineRevealed (s : Minesweeper) : Prop :=
  ∀ r < s.rows, ∀ c < s.cols, s.gameBoard r c = -1 → s.revealed r c = false

instance (s : Minesweeper) : Decidable (NoMineRevealed s) := by
  unfold NoMineRevealed; infer_instance

/-- Every non-mine cell of the grid carries the mark `revealed`. -/
def AllSafeRevealed (s : Minesweeper) : Prop :=
  ∀ r < s.rows, ∀ c < s.cols, s.gameBoard r c ≠ -1 → s.revealed r c = true

instance (s : Minesweeper) : Decidable (AllSafeRevealed s) := by
  unfold AllSafeRevealed; infer_instance

/-- What `revealCell` and the methods it calls leave alone: they only add `revealed` marks and
may change `gameState` and the timer. -/
structure RevealFrame (s t : Minesweeper) : Prop where
  currentDifficulty : t.currentDifficulty = s.currentDifficulty
  gameBoard : t.gameBoard = s.gameBoard
  firstClick : t.firstClick = s.firstClick
  rows : t.rows = s.rows
  cols : t.cols = s.cols
  mineCount : t.mineCount = s.mineCount
  flaggedCount : t.flaggedCount = s.flaggedCount
  flagged : t.flagged = s.flagged
  mono : ∀ r c, s.revealed r c = true → t.revealed r c = true

/-- The grid after `placeMines`: exact counts, and as many mines as `mineCount` says. -/
structure MinesPlaced (s : Minesweeper) : Prop where
  counts : CountsExact s
  total : (mineCells s).card = s.mineCount

/-- The condition carried through the flood reveal started on a non-mine cell. -/
structure FloodInv (s : Minesweeper) : Prop where
  notLost : s.gameState ≠ .lost
  notPlaying : s.gameState ≠ .playing
  waiting : s.gameState = .waiting → NoMineRevealed s
  won : s.gameState = .won → AllSafeRevealed s

/-- The states the page can be in: the state built by the constructor, followed by any sequence
of clicks and right clicks on cells of the grid, clicks on the new-game button and clicks on a
difficulty button. -/
inductive Reachable : Minesweeper → Prop
  | init : Reachable Minesweeper.new
  | click (s s' : Minesweeper) (draws : List (Nat × Nat)) (row col : Nat) :
      Reachable s → row < s.rows → col < s.cols → DrawsInGrid s draws →
      handleCellClick s draws row col = some s' → Reachable s'
  | rightClick (s : Minesweeper) (row col : Nat) :
      Reachable s → row < s.rows → col < s.cols → Reachable (handleRightClick s row col)
  | newGame (s : Minesweeper) : Reachable s → Reachable (newGame s)
  | selectDifficulty (s : Minesweeper) (d : Difficulty) :
      Reachable s → Reachable (selectDifficulty s d)

/-- Facts that hold in every reachable state. -/
structure Inv (s : Minesweeper) : Prop where
  rows : s.rows = (difficulties s.currentDifficulty).rows
  cols : s.cols = (difficulties s.currentDifficulty).cols
  mineCount : s.mineCount = (difficulties s.currentDifficulty).mines
  fresh : s.firstClick = true →
    (∀ r c, s.gameBoard r c = 0) ∧ (∀ r c, s.revealed r c = false) ∧ s.gameState = .waiting
  placed : s.firstClick = false → MinesPlaced s
  notPlaying : s.gameState ≠ .playing
  waiting : s.gameState = .waiting → NoMineRevealed s

/-- What a run of `revealAllMines` over a list of positions guarantees. -/
structure MinesShown (ps : List (Nat × Nat)) (s t : Minesweeper) : Prop where
  frame : RevealFrame s t
  gameState : t.gameState = s.gameState
  timerInterval : t.timerInterval = s.timerInterval
  activeIntervals : t.activeIntervals = s.activeIntervals
  shown : ∀ r c, t.revealed r c = true ↔
    (s.revealed r c = true ∨ ((r, c) ∈ ps ∧ s.gameBoard r c = -1 ∧ s.flagged r c = false))

/-- The statement `cell.classList.add('revealed')` of `revealCell`. -/
def markRevealed (s : Minesweeper) (row col : Nat) : Minesweeper :=
  { s with revealed := setCell s.revealed row col true }

/-- The state `handleCellClick` hands to `revealCell` once its two early returns are passed:
on the first click the mines are placed, `firstClick` is cleared and the timer is started. -/
def clickStart (s : Minesweeper) (draws : List (Nat × Nat)) (row col : Nat) :
    Option Minesweeper :=
  if s.firstClick then
    (placeMines s draws row col).map fun s => startTimer { s with firstClick := false }
  else some s

/-- What is known of the state handed to `revealCell` by a click on an unflagged grid cell of a
non-terminal state satisfying the invariant. -/
structure ClickReady (s s1 : Minesweeper) (row col : Nat) : Prop where
  currentDifficulty : s1.currentDifficulty = s.currentDifficulty
  rows : s1.rows = s.rows
  cols : s1.cols = s.cols
  mineCount : s1.mineCount = s.mineCount
  gameState : s1.gameState = s.gameState
  revealed : s1.revealed = s.revealed
  flagged : s1.flagged = s.flagged
  flaggedCount : s1.flaggedCount = s.flaggedCount
  firstClick : s1.firstClick = false
  placed : MinesPlaced s1
  later : s.firstClick = false → s1 = s
  first : s.firstClick = true → s1.gameBoard row col ≠ -1 ∧ s1.timerInterval = true

/-- Example draws for the easy preset: the mines go to (4,4), (4,5), (5,4) and (3,5). -/
def exampleDraws : List (Nat × Nat) := [(4, 4), (4, 5), (5, 4), (3, 5)]

/-- Example state: on the fresh easy board the cell (4,5) is flagged, then the cell (0,0) is
clicked and the mines are placed by `exampleDraws`. -/
def exampleGame : Minesweeper :=
  (handleCellClick (handleRightClick Minesweeper.new 4 5) exampleDraws 0 0).getD Minesweeper.new

/-- Example terminal state: the mine at (4,4) of `exampleGame` is clicked. -/
def exampleLost : Minesweeper :=
  (handleCellClick exampleGame [] 4 4).getD Minesweeper.new

/-- Every grid position among the nine positions `(row + i, col + j)` visited by the double
loop of `revealAdjacentCells` carries the mark `revealed`. -/
def VisitedRevealed (s : Minesweeper) (row col : Nat) : Prop :=
  ∀ i ∈ offsets, ∀ j ∈ offsets,
    (row : Int) + i ≥ 0 → (row : Int) + i < s.rows → (col : Int) + j ≥ 0 → (col : Int) + j < s.cols →
    s.revealed ((row : Int) + i).toNat ((col : Int) + j).toNat = true

/-- The closure condition of the flood, with the cells whose loop is still running (`pending`)
left out: every other revealed grid cell storing `0` has its visited positions revealed. -/
def ClosedExcept (s : Minesweeper) (pending : Nat → Nat → Prop) : Prop :=
  ∀ r < s.rows, ∀ c < s.cols, s.revealed r c = true → s.gameBoard r c = 0 → ¬ pending r c →
    VisitedRevealed s r c

/-- Every grid position at Chebyshev distance at most 1 from `(r, c)` carries the mark
`revealed`. -/
def NeighboursRevealed (s : Minesweeper) (r c : Nat) : Prop :=
  ∀ r' < s.rows, ∀ c' < s.cols, chebyshev r c r' c' ≤ 1 → s.revealed r' c' = true

instance (s : Minesweeper) (r c : Nat) : Decidable (NeighboursRevealed s r c) := by
  unfold NeighboursRevealed; infer_instance

/-- The flood reveal is closed under zero cells: every revealed grid cell storing `0` has all of
its in-grid neighbours revealed. -/
def FloodClosed (s : Minesweeper) : Prop :=
  ∀ r < s.rows, ∀ c < s.cols, s.revealed r c = true → s.gameBoard r c = 0 →
    NeighboursRevealed s r c

instance (s : Minesweeper) : Decidable (FloodClosed s) := by
  unfold FloodClosed; infer_instance

/-- The grid cell `(r', c')` lies in the 8-connected region of zero-count cells containing the
zero-count grid cell `(r, c)`. -/
inductive ZeroConnected (s : Minesweeper) : Nat → Nat → Nat → Nat → Prop
  | start (r c : Nat) : r < s.rows → c < s.cols → s.gameBoard r c = 0 → ZeroConnected s r c r c
  | step (r c r' c' r'' c'' : Nat) : ZeroConnected s r c r' c' → r'' < s.rows → c'' < s.cols →
      chebyshev r' c' r'' c'' ≤ 1 → s.gameBoard r'' c'' = 0 → ZeroConnected s r c r'' c''

/-- The grid positions whose cell carries the mark `flagged`. -/
def flaggedCells (s : Minesweeper) : Finset (Nat × Nat) :=
  (gridCells s).filter fun p => s.flagged p.1 p.2 = true

/-- The timer is not leaked: the stored handle is the only repeating callback alive, and it is
set exactly while the first reveal has happened and the game has not ended. -/
structure TimerInv (s : Minesweeper) : Prop where
  alive : s.activeIntervals = if s.timerInterval then 1 else 0
  active : s.timerInterval = true ↔
    (s.firstClick = false ∧ s.gameState ≠ .won ∧ s.gameState ≠ .lost)

/-- Further facts that hold in every reachable state. -/
structure Inv2 (s : Minesweeper) : Prop where
  flags : s.flaggedCount = ((flaggedCells s).card : Int)
  timer : TimerInv s
  closed : ClosedExcept s fun _ _ => False

/-- What `revealCell` on a non-mine cell of a board with exact counts does to `gameState` and to
the mines: the state is kept or becomes `won`, and a mine that gets revealed is an unflagged
mine shown by `gameWon`. -/
structure NoLoss (s t : Minesweeper) : Prop where
  gameState : t.gameState = s.gameState ∨ t.gameState = .won
  mines : ∀ r < s.rows, ∀ c < s.cols, s.gameBoard r c = -1 → t.revealed r c = true →
    s.revealed r c = true ∨ (t.gameState = .won ∧ s.flagged r c = false)

/-- The timer condition carried through `revealCell` once `firstClick` is cleared: the stored
handle is the only repeating callback alive, and it is set exactly while the game has not
ended. -/
def FloodTimer (s : Minesweeper) : Prop :=
  s.activeIntervals = (if s.timerInterval then 1 else 0) ∧
    (s.timerInterval = true ↔ (s.gameState ≠ .won ∧ s.gameState ≠ .lost))

/-- Example state: the fresh easy board with the four cells (0,0), (0,1), (0,2), (0,3)
flagged, as many flags as the preset has mines. -/
def exampleFlagged : Minesweeper :=
  handleRightClick (handleRightClick (handleRightClick
    (handleRightClick Minesweeper.new 0 0) 0 1) 0 2) 0 3

/-- Example terminal state: the last hidden non-mine cell (5,5) of `exampleGame` is clicked. -/
def exampleWon : Minesweeper :=
  (handleCellClick exampleGame [] 5 5).getD Minesweeper.new

/-- Example draws for the easy preset: the mines go to (0,0), (0,1), (3,3) and (5,5). -/
def scenarioDraws : List (Nat × Nat) := [(0, 0), (0, 1), (3, 3), (5, 5)]

/-- Example state: the first click on the fresh easy board is on the cell (2,0) and the mines
are placed by `scenarioDraws`. -/
def scenarioFlood : Minesweeper :=
  (handleCellClick Minesweeper.new scenarioDraws 2 0).getD Minesweeper.new

theorem SameButBoard.itself (s : Minesweeper) : SameButBoard s s :=
  ⟨rfl, rfl, rfl, rfl, rfl, rfl, rfl, rfl, rfl, rfl, rfl⟩

theorem SameButBoard.andThen {s t u : Minesweeper} (h₁ : SameButBoard s t) (h₂ : SameButBoard t u) :
    SameButBoard s u :=
  ⟨h₂.1.trans h₁.1, h₂.2.trans h₁.2, h₂.3.trans h₁.3, h₂.4.trans h₁.4, h₂.5.trans h₁.5,
    h₂.6.trans h₁.6, h₂.7.trans h₁.7, h₂.8.trans h₁.8, h₂.9.trans h₁.9, h₂.10.trans h₁.10,
    h₂.11.trans h₁.11⟩

theorem sameButBoard_set (s : Minesweeper) (g : Nat → Nat → Int) :
    SameButBoard s { s with gameBoard := g } :=
  ⟨rfl, rfl, rfl, rfl, rfl, rfl, rfl, rfl, rfl, rfl, rfl⟩

theorem setCell_same {α : Type} (g : Nat → Nat → α) (r c : Nat) (v : α) :
    setCell g r c v r c = v := by
  simp [setCell]

theorem setCell_other {α : Type} (g : Nat → Nat → α) (r c r' c' : Nat) (v : α)
    (h : ¬ (r' = r ∧ c' = c)) : setCell g r c v r' c' = g r' c' := by
  simp [setCell, h]

/-! ### The placement loop -/

theorem placeMinesLoop_frame (mines er ec : Nat) :
    ∀ (draws : List (Nat × Nat)) (k : Nat) (s s' : Minesweeper),
      placeMinesLoop mines er ec draws k s = some s' → SameButBoard s s' := by
  intro draws
  induction draws with
  | nil =>
    intro k s s' h
    simp only [placeMinesLoop] at h
    split at h
    · cases h
    · cases h; exact SameButBoard.itself _
  | cons d draws ih =>
    obtain ⟨row, col⟩ := d
    intro k s s' h
    simp only [placeMinesLoop] at h
    split at h
    · split at h
      · exact ih _ _ _ h
      · exact (sameButBoard_set s _).andThen (ih _ _ _ h)
    · cases h; exact SameButBoard.itself _

theorem placeMinesLoop_exclude (mines er ec : Nat) :
    ∀ (draws : List (Nat × Nat)) (k : Nat) (s s' : Minesweeper),
      placeMinesLoop mines er ec draws k s = some s' →
      s.gameBoard er ec ≠ -1 → s'.gameBoard er ec ≠ -1 := by
  intro draws
  induction draws with
  | nil =>
    intro k s s' h
    simp only [placeMinesLoop] at h
    split at h
    · cases h
    · cases h; exact id
  | cons d draws ih =>
    obtain ⟨row, col⟩ := d
    intro k s s' h h0
    simp only [placeMinesLoop] at h
    split at h
    · split at h
      · exact ih _ _ _ h h0
      · rename_i hne
        refine ih _ _ _ h ?_
        have : ¬ (er = row ∧ ec = col) := fun hh => hne (Or.inl ⟨hh.1.symm, hh.2.symm⟩)
        simpa [setCell_other _ _ _ _ _ _ this] using h0
    · cases h; exact h0

theorem mineCells_setCell (s : Minesweeper) (row col : Nat) (hr : row < s.rows)
    (hc : col < s.cols) :
    mineCells { s with gameBoard := setCell s.gameBoard row col (-1) } =
      insert (row, col) (mineCells s) := by
  ext ⟨r, c⟩
  simp only [mineCells, gridCells, Finset.mem_filter, Finset.mem_product, Finset.mem_range,
    Finset.mem_insert, Prod.mk.injEq, setCell]
  by_cases h : r = row ∧ c = col
  · obtain ⟨rfl, rfl⟩ := h
    simp [hr, hc]
  · simp [h]

theorem placeMinesLoop_card (mines er ec : Nat) :
    ∀ (draws : List (Nat × Nat)) (k : Nat) (s s' : Minesweeper),
      DrawsInGrid s draws → k ≤ mines →
      placeMinesLoop mines er ec draws k s = some s' →
      (mineCells s').card + k = (mineCells s).card + mines := by
  intro draws
  induction draws with
  | nil =>
    intro k s s' _ hk h
    simp only [placeMinesLoop] at h
    split at h
    · cases h
    · cases h; omega
  | cons d draws ih =>
    obtain ⟨row, col⟩ := d
    intro k s s' hd hk h
    have hin : row < s.rows ∧ col < s.cols := hd (row, col) (List.mem_cons_self _ _)
    have hd' : DrawsInGrid s draws := fun d hm => hd d (List.mem_cons_of_mem _ hm)
    simp only [placeMinesLoop] at h
    split at h
    · split at h
      · exact ih _ _ _ hd' hk h
      · rename_i hlt hne
        have hnot : (row, col) ∉ mineCells s := by
          intro hm
          simp only [mineCells, Finset.mem_filter] at hm
          exact hne (Or.inr hm.2)
        have := ih (k + 1) _ s' (by exact hd') (by omega) h
        rw [mineCells_setCell s row col hin.1 hin.2, Finset.card_insert_of_not_mem hnot] at this
        omega
    · cases h; omega

/-! ### countAdjacentMines -/

theorem ite_succ_eq (p : Prop) [Decidable p] (n : Int) :
    (if p then n + 1 else n) = n + (if p then 1 else 0) := by
  split <;> simp

theorem sum_offsetSet (f : Int → Nat) : ∑ x ∈ offsetSet, f x = f (-1) + f 0 + f 1 := by
  rw [offsetSet, Finset.sum_insert (by decide), Finset.sum_insert (by decide),
    Finset.sum_singleton]
  ring

theorem countAdjacentMines_eq_card (s : Minesweeper) (row col : Nat) :
    countAdjacentMines s row col =
      (((offsetSet ×ˢ offsetSet).filter fun p => AdjacentMineAt s row col p.1 p.2).card : Int) := by
  rw [Finset.card_filter, Finset.sum_product]
  simp only [countAdjacentMines, offsets, List.foldl, ite_succ_eq, AdjacentMineAt, sum_offsetSet]
  push_cast
  ring

theorem countAdjacentMines_nonneg (s : Minesweeper) (row col : Nat) :
    0 ≤ countAdjacentMines s row col := by
  rw [countAdjacentMines_eq_card]
  exact Int.natCast_nonneg _

theorem countAdjacentMines_le (s : Minesweeper) (row col : Nat) :
    countAdjacentMines s row col ≤ 9 := by
  rw [countAdjacentMines_eq_card]
  have h := Finset.card_filter_le (offsetSet ×ˢ offsetSet)
    (fun p => AdjacentMineAt s row col p.1 p.2)
  have h9 : (offsetSet ×ˢ offsetSet).card = 9 := by decide
  omega

theorem countAdjacentMines_congr (s t : Minesweeper) (row col : Nat) (hr : t.rows = s.rows)
    (hc : t.cols = s.cols) (hm : ∀ r c, t.gameBoard r c = -1 ↔ s.gameBoard r c = -1) :
    countAdjacentMines t row col = countAdjacentMines s row col := by
  simp only [countAdjacentMines, hr, hc, hm]

theorem countAdjacentMines_eq_zero (s : Minesweeper) (row col : Nat)
    (h : countAdjacentMines s row col = 0) (i j : Int) (hi : i ∈ offsets) (hj : j ∈ offsets) :
    ¬ AdjacentMineAt s row col i j := by
  rw [countAdjacentMines_eq_card] at h
  have h0 : ((offsetSet ×ˢ offsetSet).filter fun p => AdjacentMineAt s row col p.1 p.2) = ∅ :=
    Finset.card_eq_zero.mp (by exact_mod_cast h)
  intro hadj
  have hmem : (i, j) ∈ (offsetSet ×ˢ offsetSet).filter
      fun p => AdjacentMineAt s row col p.1 p.2 := by
    simp only [Finset.mem_filter, Finset.mem_product, offsetSet, Finset.mem_insert,
      Finset.mem_singleton]
    simp only [offsets, List.mem_cons, List.mem_singleton, List.not_mem_nil, or_false] at hi hj
    exact ⟨⟨hi, hj⟩, hadj⟩
  rw [h0] at hmem
  exact Finset.not_mem_empty _ hmem

/-! ### Nested loops over the grid -/

theorem foldl_keeps {σ α : Type} (m : σ → Nat) (f : σ → α → σ)
    (hm : ∀ s a, m (f s a) = m s) (l : List α) (s : σ) : m (l.foldl f s) = m s := by
  induction l generalizing s with
  | nil => rfl
  | cons a l ih => simp only [List.foldl_cons, ih, hm]

/-- A row-major double loop whose body leaves the column bound unchanged is a single loop over
the list of grid positions. -/
theorem foldl_grid_eq {σ : Type} (cols : σ → Nat) (f : σ → Nat → Nat → σ)
    (hcols : ∀ s r c, cols (f s r c) = cols s) (rs : List Nat) (s : σ) :
    rs.foldl (fun s row => (List.range (cols s)).foldl (fun s col => f s row col) s) s =
      (rs.product (List.range (cols s))).foldl (fun s p => f s p.1 p.2) s := by
  induction rs generalizing s with
  | nil => rfl
  | cons r rs ih =>
    have hk : cols ((List.range (cols s)).foldl (fun s col => f s r col) s) = cols s :=
      foldl_keeps cols _ (fun s a => hcols s r a) _ s
    rw [List.foldl_cons, ih, hk,
      show (r :: rs).product (List.range (cols s)) =
        List.map (Prod.mk r) (List.range (cols s)) ++ rs.product (List.range (cols s)) from
        List.product_cons r rs _, List.foldl_append, List.foldl_map]

theorem mem_gridList (s : Minesweeper) (p : Nat × Nat) :
    p ∈ (List.range s.rows).product (List.range s.cols) ↔ p.1 < s.rows ∧ p.2 < s.cols := by
  obtain ⟨r, c⟩ := p
  simp [List.mem_product]

/-! ### The number pass -/

theorem fillNumbersStep_cols (s : Minesweeper) (row col : Nat) :
    (fillNumbersStep s row col).cols = s.cols := by
  unfold fillNumbersStep; split <;> rfl

theorem fillNumbers_eq (s : Minesweeper) :
    fillNumbers s = ((List.range s.rows).product (List.range s.cols)).foldl
      (fun s p => fillNumbersStep s p.1 p.2) s :=
  foldl_grid_eq Minesweeper.cols fillNumbersStep fillNumbersStep_cols (List.range s.rows) s

theorem fillNumbersStep_mines (s : Minesweeper) (row col r c : Nat) :
    (fillNumbersStep s row col).gameBoard r c = -1 ↔ s.gameBoard r c = -1 := by
  unfold fillNumbersStep
  split
  · rename_i h
    simp only [setCell]
    split
    · rename_i heq
      obtain ⟨rfl, rfl⟩ := heq
      have := countAdjacentMines_nonneg s r c
      constructor
      · intro h1; omega
      · intro h1; exact absurd h1 h
    · rfl
  · rfl

theorem fillNumbersStep_same (s : Minesweeper) (row col : Nat) :
    SameButBoard s (fillNumbersStep s row col) := by
  unfold fillNumbersStep
  split
  · exact sameButBoard_set s _
  · exact SameButBoard.itself s

theorem fillNumbers_fold (ps : List (Nat × Nat)) (s : Minesweeper) :
    FillResult ps s (ps.foldl (fun s p => fillNumbersStep s p.1 p.2) s) := by
  induction ps generalizing s with
  | nil => exact ⟨SameButBoard.itself s, fun _ _ => Iff.rfl, fun _ _ _ => rfl, fun _ _ h => by simp at h⟩
  | cons p ps ih =>
    obtain ⟨row, col⟩ := p
    have h1 := ih (fillNumbersStep s row col)
    have hs := fillNumbersStep_same s row col
    have hm := fillNumbersStep_mines s row col
    have hcnt : ∀ r c, countAdjacentMines (fillNumbersStep s row col) r c =
        countAdjacentMines s r c :=
      fun r c => countAdjacentMines_congr s _ r c hs.rows hs.cols hm
    simp only [List.foldl_cons]
    refine ⟨hs.andThen h1.same, fun r c => (h1.mines r c).trans (hm r c), ?_, ?_⟩
    · intro r c hnot
      have hne : ¬ (r = row ∧ c = col) := by
        rintro ⟨rfl, rfl⟩; exact hnot (List.mem_cons_self _ _)
      rw [h1.untouched r c (fun hmem => hnot (List.mem_cons_of_mem _ hmem))]
      unfold fillNumbersStep
      split
      · exact setCell_other _ _ _ _ _ _ hne
      · rfl
    · intro r c hmem hnm
      by_cases hin : (r, c) ∈ ps
      · rw [h1.filled r c hin (fun h => hnm ((hm r c).mp h)), hcnt]
      · rw [h1.untouched r c hin]
        have heq : (r, c) = (row, col) := by
          rcases List.mem_cons.mp hmem with h | h
          · exact h
          · exact absurd h hin
        obtain ⟨rfl, rfl⟩ := Prod.mk.inj heq
        unfold fillNumbersStep
        rw [if_pos hnm]
        exact setCell_same _ _ _ _

theorem fillNumbers_result (s : Minesweeper) :
    FillResult ((List.range s.rows).product (List.range s.cols)) s (fillNumbers s) := by
  rw [fillNumbers_eq]
  exact fillNumbers_fold _ s

/-! ### The stored counts against the brute-force adjacency count -/

theorem countAdjacentMines_eq_neighbourMineCount (s : Minesweeper) (r c : Nat)
    (hself : s.gameBoard r c ≠ -1) :
    countAdjacentMines s r c = (neighbourMineCount s r c : Int) := by
  rw [countAdjacentMines_eq_card, neighbourMineCount]
  congr 1
  apply Finset.card_bij (fun p _ => (((r : Int) + p.1).toNat, ((c : Int) + p.2).toNat))
  · rintro ⟨i, j⟩ h
    simp only [Finset.mem_filter, Finset.mem_product, offsetSet, Finset.mem_insert,
      Finset.mem_singleton, AdjacentMineAt] at h
    obtain ⟨⟨hi, hj⟩, h1, h2, h3, h4, h5⟩ := h
    simp only [gridCells, Finset.mem_filter, Finset.mem_product, Finset.mem_range, chebyshev]
    refine ⟨⟨by omega, by omega⟩, ?_, h5⟩
    have h00 : ¬ (i = 0 ∧ j = 0) := by
      rintro ⟨rfl, rfl⟩
      simp at h5
      exact hself h5
    omega
  · rintro ⟨i, j⟩ h ⟨i', j'⟩ h' heq
    simp only [Finset.mem_filter, AdjacentMineAt] at h h'
    simp only [Prod.mk.injEq] at heq ⊢
    omega
  · rintro ⟨r', c'⟩ h
    simp only [gridCells, Finset.mem_filter, Finset.mem_product, Finset.mem_range, chebyshev] at h
    obtain ⟨⟨hr, hc⟩, hd, hm⟩ := h
    refine ⟨((r' : Int) - r, (c' : Int) - c), ?_, ?_⟩
    · simp only [Finset.mem_filter, Finset.mem_product, offsetSet, Finset.mem_insert,
        Finset.mem_singleton, AdjacentMineAt]
      have e1 : ((r : Int) + ((r' : Int) - r)).toNat = r' := by omega
      have e2 : ((c : Int) + ((c' : Int) - c)).toNat = c' := by omega
      rw [e1, e2]
      refine ⟨⟨by omega, by omega⟩, by omega, by omega, by omega, by omega, hm⟩
    · simp only [Prod.mk.injEq]
      omega

theorem neighbourMineCount_le (s : Minesweeper) (r c : Nat) (hself : s.gameBoard r c ≠ -1) :
    neighbourMineCount s r c ≤ 8 := by
  have h := countAdjacentMines_eq_neighbourMineCount s r c hself
  rw [countAdjacentMines_eq_card] at h
  have hsub : ((offsetSet ×ˢ offsetSet).filter fun p => AdjacentMineAt s r c p.1 p.2) ⊆
      (offsetSet ×ˢ offsetSet).erase (0, 0) := by
    intro p hp
    simp only [Finset.mem_filter] at hp
    refine Finset.mem_erase.mpr ⟨?_, hp.1⟩
    rintro rfl
    have h5 := hp.2.2.2.2.2
    simp at h5
    exact hself h5
  have hle := Finset.card_le_card hsub
  have h8 : ((offsetSet ×ˢ offsetSet).erase ((0 : Int), (0 : Int))).card = 8 := by decide
  omega

/-! ### placeMines -/

theorem eq_some_getD {α : Type} (o : Option α) (d : α) (h : o.isSome = true) :
    o = some (o.getD d) := by
  cases o with
  | none => cases h
  | some a => rfl

theorem placeMines_some (s s' : Minesweeper) (draws : List (Nat × Nat)) (er ec : Nat)
    (h : placeMines s draws er ec = some s') :
    ∃ t, placeMinesLoop (difficulties s.currentDifficulty).mines er ec draws 0 s = some t ∧
      s' = fillNumbers t := by
  simp only [placeMines, Option.map_eq_some'] at h
  obtain ⟨t, ht, rfl⟩ := h
  exact ⟨t, ht, rfl⟩

theorem placeMines_frame (s s' : Minesweeper) (draws : List (Nat × Nat)) (er ec : Nat)
    (h : placeMines s draws er ec = some s') : SameButBoard s s' := by
  obtain ⟨t, ht, rfl⟩ := placeMines_some s s' draws er ec h
  exact (placeMinesLoop_frame _ _ _ _ _ _ _ ht).andThen (fillNumbers_result t).same

theorem mineCells_congr (s t : Minesweeper) (hr : t.rows = s.rows) (hc : t.cols = s.cols)
    (hm : ∀ r c, t.gameBoard r c = -1 ↔ s.gameBoard r c = -1) : mineCells t = mineCells s := by
  simp only [mineCells, gridCells, hr, hc, hm]

theorem mineCells_zero (s : Minesweeper) (hzero : ∀ r c, s.gameBoard r c = 0) :
    mineCells s = ∅ := by
  simp [mineCells, hzero]

theorem neighbourMineCount_congr (s t : Minesweeper) (hr : t.rows = s.rows)
    (hc : t.cols = s.cols) (hm : ∀ r c, t.gameBoard r c = -1 ↔ s.gameBoard r c = -1) (r c : Nat) :
    neighbourMineCount t r c = neighbourMineCount s r c := by
  simp only [neighbourMineCount, gridCells, hr, hc, hm]

theorem fillNumbers_countsExact (t : Minesweeper) : CountsExact (fillNumbers t) := by
  intro r c hr hc hnm
  have hres := fillNumbers_result t
  rw [hres.same.rows] at hr
  rw [hres.same.cols] at hc
  have hnm' : t.gameBoard r c ≠ -1 := fun h => hnm ((hres.mines r c).mpr h)
  rw [hres.filled r c ((mem_gridList t (r, c)).mpr ⟨hr, hc⟩) hnm',
    countAdjacentMines_eq_neighbourMineCount t r c hnm',
    neighbourMineCount_congr t _ hres.same.rows hres.same.cols hres.mines]

/-! ### revealAllMines, gameWon, gameOver -/

theorem RevealFrame.unchanged (s : Minesweeper) : RevealFrame s s :=
  ⟨rfl, rfl, rfl, rfl, rfl, rfl, rfl, rfl, fun _ _ h => h⟩

theorem RevealFrame.followedBy {s t u : Minesweeper} (h₁ : RevealFrame s t) (h₂ : RevealFrame t u) :
    RevealFrame s u :=
  ⟨h₂.1.trans h₁.1, h₂.2.trans h₁.2, h₂.3.trans h₁.3, h₂.4.trans h₁.4, h₂.5.trans h₁.5,
    h₂.6.trans h₁.6, h₂.7.trans h₁.7, h₂.8.trans h₁.8, fun r c h => h₂.mono r c (h₁.mono r c h)⟩

theorem revealFrame_mark (s : Minesweeper) (row col : Nat) :
    RevealFrame s { s with revealed := setCell s.revealed row col true } :=
  ⟨rfl, rfl, rfl, rfl, rfl, rfl, rfl, rfl, fun r c h => by
    simp only [setCell]; split
    · rfl
    · exact h⟩

theorem revealFrame_stopTimer (s : Minesweeper) (g : GameState) :
    RevealFrame s (stopTimer { s with gameState := g }) := by
  unfold stopTimer
  split
  · exact ⟨rfl, rfl, rfl, rfl, rfl, rfl, rfl, rfl, fun _ _ h => h⟩
  · exact ⟨rfl, rfl, rfl, rfl, rfl, rfl, rfl, rfl, fun _ _ h => h⟩

theorem stopTimer_gameState (s : Minesweeper) : (stopTimer s).gameState = s.gameState := by
  unfold stopTimer; split <;> rfl

theorem stopTimer_revealed (s : Minesweeper) : (stopTimer s).revealed = s.revealed := by
  unfold stopTimer; split <;> rfl

theorem stopTimer_timerInterval (s : Minesweeper) : (stopTimer s).timerInterval = false := by
  unfold stopTimer
  split
  · rfl
  · rename_i h; simpa using h

theorem revealAllMinesStep_cols (s : Minesweeper) (row col : Nat) :
    (revealAllMinesStep s row col).cols = s.cols := by
  unfold revealAllMinesStep; split
  · split <;> rfl
  · rfl

theorem revealAllMines_eq (s : Minesweeper) :
    revealAllMines s = ((List.range s.rows).product (List.range s.cols)).foldl
      (fun s p => revealAllMinesStep s p.1 p.2) s :=
  foldl_grid_eq Minesweeper.cols revealAllMinesStep revealAllMinesStep_cols (List.range s.rows) s

theorem revealAllMinesStep_shown (s : Minesweeper) (row col : Nat) :
    MinesShown [(row, col)] s (revealAllMinesStep s row col) := by
  unfold revealAllMinesStep
  split
  · rename_i hm
    split
    · rename_i hf
      refine ⟨revealFrame_mark s row col, rfl, rfl, rfl, fun r c => ?_⟩
      simp only [setCell, List.mem_singleton, Prod.mk.injEq]
      split
      · rename_i heq
        obtain ⟨rfl, rfl⟩ := heq
        simp only [true_iff]
        right
        exact ⟨⟨trivial, trivial⟩, hm, by simpa using hf⟩
      · rename_i hne
        constructor
        · exact Or.inl
        · rintro (h | ⟨h, _⟩)
          · exact h
          · exact absurd h hne
    · rename_i hf
      refine ⟨RevealFrame.unchanged s, rfl, rfl, rfl, fun r c => ?_⟩
      constructor
      · exact Or.inl
      · rintro (h | ⟨h, _, h3⟩)
        · exact h
        · simp only [List.mem_singleton, Prod.mk.injEq] at h
          obtain ⟨rfl, rfl⟩ := h
          simp [h3] at hf
  · rename_i hm
    refine ⟨RevealFrame.unchanged s, rfl, rfl, rfl, fun r c => ?_⟩
    constructor
    · exact Or.inl
    · rintro (h | ⟨h, h2, _⟩)
      · exact h
      · simp only [List.mem_singleton, Prod.mk.injEq] at h
        obtain ⟨rfl, rfl⟩ := h
        exact absurd h2 hm

theorem revealAllMines_fold (ps : List (Nat × Nat)) (s : Minesweeper) :
    MinesShown ps s (ps.foldl (fun s p => revealAllMinesStep s p.1 p.2) s) := by
  induction ps generalizing s with
  | nil =>
    exact ⟨RevealFrame.unchanged s, rfl, rfl, rfl, fun r c => by simp⟩
  | cons p ps ih =>
    obtain ⟨row, col⟩ := p
    have h1 := revealAllMinesStep_shown s row col
    have h2 := ih (revealAllMinesStep s row col)
    simp only [List.foldl_cons]
    refine ⟨h1.frame.followedBy h2.frame, h2.gameState.trans h1.gameState,
      h2.timerInterval.trans h1.timerInterval, h2.activeIntervals.trans h1.activeIntervals,
      fun r c => ?_⟩
    rw [h2.shown, h1.shown, h1.frame.gameBoard, h1.frame.flagged]
    simp only [List.mem_singleton, List.mem_cons]
    tauto

theorem revealAllMines_shown (s : Minesweeper) :
    MinesShown ((List.range s.rows).product (List.range s.cols)) s (revealAllMines s) := by
  rw [revealAllMines_eq]
  exact revealAllMines_fold _ s

theorem revealAllMines_revealed (s : Minesweeper) (r c : Nat) :
    (revealAllMines s).revealed r c = true ↔
      (s.revealed r c = true ∨
        (r < s.rows ∧ c < s.cols ∧ s.gameBoard r c = -1 ∧ s.flagged r c = false)) := by
  rw [(revealAllMines_shown s).shown, mem_gridList]
  tauto

theorem gameWon_frame (s : Minesweeper) : RevealFrame s (gameWon s) :=
  (revealFrame_stopTimer s .won).followedBy (revealAllMines_shown _).frame

theorem gameWon_gameState (s : Minesweeper) : (gameWon s).gameState = .won := by
  unfold gameWon
  rw [(revealAllMines_shown _).gameState, stopTimer_gameState]

theorem gameOver_frame (s : Minesweeper) : RevealFrame s (gameOver s) :=
  (revealFrame_stopTimer s .lost).followedBy (revealAllMines_shown _).frame

theorem gameOver_gameState (s : Minesweeper) : (gameOver s).gameState = .lost := by
  unfold gameOver
  rw [(revealAllMines_shown _).gameState, stopTimer_gameState]

theorem gameOver_timerInterval (s : Minesweeper) : (gameOver s).timerInterval = false := by
  unfold gameOver
  rw [(revealAllMines_shown _).timerInterval, stopTimer_timerInterval]

theorem gameOver_revealed (s : Minesweeper) (r c : Nat) :
    (gameOver s).revealed r c = true ↔
      (s.revealed r c = true ∨
        (r < s.rows ∧ c < s.cols ∧ s.gameBoard r c = -1 ∧ s.flagged r c = false)) := by
  unfold gameOver
  rw [revealAllMines_revealed]
  have hf := revealFrame_stopTimer s .lost
  rw [stopTimer_revealed, hf.rows, hf.cols, hf.gameBoard, hf.flagged]

/-! ### checkWin -/

theorem foldl_add_range (g : Nat → Nat) (k n : Nat) :
    (List.range k).foldl (fun cnt x => cnt + g x) n = n + ∑ x ∈ Finset.range k, g x := by
  induction k with
  | zero => simp
  | succ k ih =>
    rw [List.range_succ, List.foldl_append, ih, Finset.sum_range_succ]
    simp only [List.foldl_cons, List.foldl_nil]
    omega

theorem foldl_count_range (p : Nat → Prop) [DecidablePred p] (k n : Nat) :
    (List.range k).foldl (fun cnt x => if p x then cnt + 1 else cnt) n =
      n + ∑ x ∈ Finset.range k, if p x then 1 else 0 := by
  have h : (fun cnt x => if p x then cnt + 1 else cnt) =
      fun (cnt x : Nat) => cnt + (if p x then 1 else 0) := by
    funext cnt x
    split <;> simp
  rw [h, foldl_add_range]

theorem revealedCount_eq_card (s : Minesweeper) : revealedCount s = (revealedCells s).card := by
  unfold revealedCount revealedCells gridCells
  rw [Finset.card_filter, Finset.sum_product]
  simp only [foldl_count_range, foldl_add_range, Nat.zero_add]

theorem card_gridCells (s : Minesweeper) : (gridCells s).card = s.rows * s.cols := by
  simp [gridCells]

theorem card_safeCells (s : Minesweeper) :
    (safeCells s).card + (mineCells s).card = s.rows * s.cols := by
  rw [← card_gridCells, safeCells, mineCells, add_comm]
  exact Finset.filter_card_add_filter_neg_card_eq_card _

theorem revealedCells_subset_safeCells (s : Minesweeper) (h : NoMineRevealed s) :
    revealedCells s ⊆ safeCells s := by
  intro p hp
  simp only [revealedCells, safeCells, gridCells, Finset.mem_filter, Finset.mem_product,
    Finset.mem_range] at hp ⊢
  refine ⟨hp.1, fun hm => ?_⟩
  have := h p.1 hp.1.1 p.2 hp.1.2 hm
  simp [this] at hp

theorem allSafeRevealed_iff_subset (s : Minesweeper) :
    AllSafeRevealed s ↔ safeCells s ⊆ revealedCells s := by
  constructor
  · intro h p hp
    simp only [revealedCells, safeCells, gridCells, Finset.mem_filter, Finset.mem_product,
      Finset.mem_range] at hp ⊢
    exact ⟨hp.1, h p.1 hp.1.1 p.2 hp.1.2 hp.2⟩
  · intro h r hr c hc hsafe
    have hmem : (r, c) ∈ safeCells s := by
      simp only [safeCells, gridCells, Finset.mem_filter, Finset.mem_product, Finset.mem_range]
      exact ⟨⟨hr, hc⟩, hsafe⟩
    have := h hmem
    simp only [revealedCells, Finset.mem_filter] at this
    exact this.2

/-- With no mine revealed and `mineCount` mines on the grid, the test of `checkWin` holds
exactly when every non-mine cell is revealed. -/
theorem checkWin_test_iff (s : Minesweeper) (hno : NoMineRevealed s)
    (htotal : (mineCells s).card = s.mineCount) :
    ((revealedCount s : Int) = (s.rows : Int) * s.cols - s.mineCount) ↔ AllSafeRevealed s := by
  have hsub := revealedCells_subset_safeCells s hno
  have hcard := card_safeCells s
  have hle := Finset.card_le_card hsub
  rw [revealedCount_eq_card, allSafeRevealed_iff_subset]
  have hmul : ((s.rows * s.cols : Nat) : Int) = (s.rows : Int) * s.cols := by push_cast; rfl
  constructor
  · intro h
    have hge : (safeCells s).card ≤ (revealedCells s).card := by omega
    exact (Finset.eq_of_subset_of_card_le hsub hge).ge
  · intro h
    have := Finset.card_le_card h
    omega

theorem allSafeRevealed_frame (s t : Minesweeper) (h : RevealFrame s t)
    (hs : AllSafeRevealed s) : AllSafeRevealed t := by
  intro r hr c hc hsafe
  rw [h.rows] at hr
  rw [h.cols] at hc
  rw [h.gameBoard] at hsafe
  exact h.mono r c (hs r hr c hc hsafe)

theorem gameWon_safe_revealed (s : Minesweeper) (r c : Nat) (hsafe : s.gameBoard r c ≠ -1) :
    (gameWon s).revealed r c = s.revealed r c := by
  have h := revealAllMines_revealed (stopTimer { s with gameState := .won }) r c
  have hf := revealFrame_stopTimer s .won
  rw [stopTimer_revealed, hf.gameBoard] at h
  have h' : (gameWon s).revealed r c = true ↔ s.revealed r c = true := by
    unfold gameWon
    rw [h]
    constructor
    · rintro (h1 | ⟨_, _, h2, _⟩)
      · exact h1
      · exact absurd h2 hsafe
    · exact Or.inl
  cases hb : s.revealed r c with
  | true => exact h'.mpr hb
  | false =>
    cases hb' : (gameWon s).revealed r c with
    | true => rw [h'.mp hb'] at hb; cases hb
    | false => rfl

theorem checkWin_frame (s : Minesweeper) : RevealFrame s (checkWin s) := by
  unfold checkWin
  simp only
  split
  · exact gameWon_frame s
  · exact RevealFrame.unchanged s

/-- Effect of `checkWin` on a state of the flood started on a non-mine cell. -/
theorem checkWin_floodInv (s : Minesweeper) (htotal : (mineCells s).card = s.mineCount)
    (hq : FloodInv s) :
    FloodInv (checkWin s) ∧ ((checkWin s).gameState = .won ↔ AllSafeRevealed (checkWin s)) := by
  have hgw : FloodInv (gameWon s) → AllSafeRevealed s →
      FloodInv (gameWon s) ∧ ((gameWon s).gameState = .won ↔ AllSafeRevealed (gameWon s)) :=
    fun h1 h2 => And.intro h1 (Iff.intro
      (fun _ => allSafeRevealed_frame s _ (gameWon_frame s) h2) (fun _ => gameWon_gameState s))
  have hwonInv : AllSafeRevealed s → FloodInv (gameWon s) := fun hall =>
    ⟨(by rw [gameWon_gameState]; decide), (by rw [gameWon_gameState]; decide),
      (fun h => by rw [gameWon_gameState] at h; cases h),
      fun _ => allSafeRevealed_frame s _ (gameWon_frame s) hall⟩
  cases hst : s.gameState with
  | lost => exact absurd hst hq.notLost
  | playing => exact absurd hst hq.notPlaying
  | won =>
    have hall := hq.won hst
    unfold checkWin
    simp only
    split
    · exact hgw (hwonInv hall) hall
    · exact And.intro hq (Iff.intro (fun _ => hall) (fun _ => hst))
  | waiting =>
    have hno := hq.waiting hst
    have hiff := checkWin_test_iff s hno htotal
    unfold checkWin
    simp only
    split
    · rename_i htest
      have hall := hiff.mp htest
      exact hgw (hwonInv hall) hall
    · rename_i htest
      refine And.intro hq (Iff.intro (fun h => ?_) (fun h => absurd (hiff.mpr h) htest))
      rw [hst] at h
      cases h

/-! ### revealCell -/

theorem revealCell_revealed (fuel : Nat) (s : Minesweeper) (row col : Nat)
    (h : s.revealed row col = true) : revealCell (fuel + 1) s row col = some s := by
  simp [revealCell, h]

theorem revealCell_mine (fuel : Nat) (s : Minesweeper) (row col : Nat)
    (h : s.revealed row col = false) (hm : s.gameBoard row col = -1) :
    revealCell (fuel + 1) s row col = some (gameOver (markRevealed s row col)) := by
  simp [revealCell, h, hm, markRevealed]

theorem revealCell_number (fuel : Nat) (s : Minesweeper) (row col : Nat)
    (h : s.revealed row col = false) (hm : s.gameBoard row col ≠ -1)
    (hpos : s.gameBoard row col > 0) :
    revealCell (fuel + 1) s row col = some (checkWin (markRevealed s row col)) := by
  simp [revealCell, h, hm, hpos, markRevealed]

theorem revealCell_zero (fuel : Nat) (s : Minesweeper) (row col : Nat)
    (h : s.revealed row col = false) (hm : s.gameBoard row col ≠ -1)
    (hpos : ¬ s.gameBoard row col > 0) :
    revealCell (fuel + 1) s row col =
      (revealAdjacentCells (revealCell fuel) (markRevealed s row col) row col).map checkWin := by
  simp only [revealCell, h, hm, hpos, markRevealed]
  simp

theorem foldlM_rule {σ α : Type} (f : σ → α → Option σ) (P : σ → Prop) (l : List α) (s : σ)
    (hP : P s) (hstep : ∀ t a, a ∈ l → P t → ∃ t', f t a = some t' ∧ P t') :
    ∃ t, l.foldlM f s = some t ∧ P t := by
  induction l generalizing s with
  | nil => exact ⟨s, rfl, hP⟩
  | cons a l ih =>
    obtain ⟨t', ht', hP'⟩ := hstep s a (List.mem_cons_self _ _) hP
    obtain ⟨t, ht, hPt⟩ := ih t' hP' (fun t b hb => hstep t b (List.mem_cons_of_mem _ hb))
    refine ⟨t, ?_, hPt⟩
    simp only [List.foldlM_cons, ht', Option.bind_eq_bind, Option.some_bind, ht]

/-- Loop rule for `revealAdjacentCells`: a condition that holds before the double loop and is
kept by every call made on an in-grid neighbour that is not yet revealed holds after it, and the
loop returns when each such call returns. -/
theorem revealAdjacentCells_rule (reveal : Minesweeper → Nat → Nat → Option Minesweeper)
    (P : Minesweeper → Prop) (s : Minesweeper) (row col : Nat) (hP : P s)
    (hstep : ∀ t i j, P t → i ∈ offsets → j ∈ offsets →
      (row : Int) + i ≥ 0 → (row : Int) + i < t.rows →
      (col : Int) + j ≥ 0 → (col : Int) + j < t.cols →
      t.revealed ((row : Int) + i).toNat ((col : Int) + j).toNat = false →
      ∃ t', reveal t ((row : Int) + i).toNat ((col : Int) + j).toNat = some t' ∧ P t') :
    ∃ t, revealAdjacentCells reveal s row col = some t ∧ P t := by
  unfold revealAdjacentCells
  apply foldlM_rule _ P offsets s hP
  intro t i hi hPt
  apply foldlM_rule _ P offsets t hPt
  intro u j hj hPu
  simp only
  split
  · rename_i hin
    split
    · rename_i hrev
      exact hstep u i j hPu hi hj hin.1 hin.2.1 hin.2.2.1 hin.2.2.2 (by simpa using hrev)
    · exact ⟨u, rfl, hPu⟩
  · exact ⟨u, rfl, hPu⟩

theorem hiddenCells_card_frame (s t : Minesweeper) (h : RevealFrame s t) :
    (hiddenCells t).card ≤ (hiddenCells s).card := by
  apply Finset.card_le_card
  intro p hp
  simp only [hiddenCells, gridCells, Finset.mem_filter, Finset.mem_product, Finset.mem_range,
    h.rows, h.cols] at hp ⊢
  refine ⟨hp.1, ?_⟩
  cases hb : s.revealed p.1 p.2 with
  | false => rfl
  | true => rw [h.mono _ _ hb] at hp; exact absurd hp.2 (by decide)

theorem hiddenCells_card_mark (s : Minesweeper) (row col : Nat) (hr : row < s.rows)
    (hc : col < s.cols) (h : s.revealed row col = false) :
    (hiddenCells (markRevealed s row col)).card < (hiddenCells s).card := by
  apply Finset.card_lt_card
  rw [Finset.ssubset_iff_of_subset]
  · refine ⟨(row, col), ?_, ?_⟩
    · simp only [hiddenCells, gridCells, Finset.mem_filter, Finset.mem_product,
        Finset.mem_range]
      exact ⟨⟨hr, hc⟩, h⟩
    · simp [hiddenCells, markRevealed, setCell]
  · intro p hp
    simp only [hiddenCells, gridCells, Finset.mem_filter, Finset.mem_product, Finset.mem_range,
      markRevealed, setCell] at hp ⊢
    refine ⟨hp.1, ?_⟩
    have h2 := hp.2
    split at h2
    · cases h2
    · exact h2

theorem hiddenCells_card_le (s : Minesweeper) : (hiddenCells s).card ≤ s.rows * s.cols := by
  rw [← card_gridCells]
  exact Finset.card_filter_le _ _

theorem minesPlaced_frame (s t : Minesweeper) (h : RevealFrame s t) (hs : MinesPlaced s) :
    MinesPlaced t := by
  refine ⟨fun r c hr hc hsafe => ?_, ?_⟩
  · rw [h.rows] at hr
    rw [h.cols] at hc
    rw [h.gameBoard] at hsafe ⊢
    rw [hs.counts r c hr hc hsafe]
    simp only [neighbourMineCount, gridCells, h.rows, h.cols, h.gameBoard]
  · rw [h.mineCount, ← hs.total]
    simp only [mineCells, gridCells, h.rows, h.cols, h.gameBoard]

theorem floodInv_mark (s : Minesweeper) (row col : Nat) (hsafe : s.gameBoard row col ≠ -1)
    (hq : FloodInv s) : FloodInv (markRevealed s row col) := by
  refine ⟨hq.notLost, hq.notPlaying, fun hw r hr c hc hm => ?_, fun hw =>
    allSafeRevealed_frame s _ (revealFrame_mark s row col) (hq.won hw)⟩
  have := hq.waiting hw r hr c hc hm
  simp only [markRevealed, setCell]
  split
  · rename_i heq
    obtain ⟨rfl, rfl⟩ := heq
    exact absurd hm hsafe
  · exact this

/-- A non-mine cell with exact count that is not positive has no mine among the positions the
double loop of `revealAdjacentCells` visits. -/
theorem zero_cell_neighbours_safe (s : Minesweeper) (row col : Nat) (hr : row < s.rows)
    (hc : col < s.cols) (hcounts : CountsExact s) (hsafe : s.gameBoard row col ≠ -1)
    (hpos : ¬ s.gameBoard row col > 0) (i j : Int) (hi : i ∈ offsets) (hj : j ∈ offsets)
    (h1 : (row : Int) + i ≥ 0) (h2 : (row : Int) + i < s.rows)
    (h3 : (col : Int) + j ≥ 0) (h4 : (col : Int) + j < s.cols) :
    s.gameBoard ((row : Int) + i).toNat ((col : Int) + j).toNat ≠ -1 := by
  have hcnt := hcounts row col hr hc hsafe
  rw [← countAdjacentMines_eq_neighbourMineCount s row col hsafe] at hcnt
  have h0 : countAdjacentMines s row col = 0 := by
    have := countAdjacentMines_nonneg s row col
    omega
  intro hm
  exact countAdjacentMines_eq_zero s row col h0 i j hi hj ⟨h1, h2, h3, h4, hm⟩

/-- Total correctness of `revealCell` on a grid cell: with a recursion budget above the number of
hidden cells the call returns, it only adds `revealed` marks (among them the one of the target
cell), and on a board with exact counts a call on a non-mine cell keeps the flood condition and
ends with the win test decided on the final marks. -/
theorem revealCell_spec : ∀ (fuel : Nat) (s : Minesweeper) (row col : Nat),
    row < s.rows → col < s.cols → (hiddenCells s).card < fuel →
    ∃ t, revealCell fuel s row col = some t ∧ RevealFrame s t ∧ t.revealed row col = true ∧
      (MinesPlaced s → s.gameBoard row col ≠ -1 → FloodInv s →
        FloodInv t ∧ (s.revealed row col = false →
          (t.gameState = .won ↔ AllSafeRevealed t))) := by
  intro fuel
  induction fuel with
  | zero => intro s row col _ _ h; exact absurd h (Nat.not_lt_zero _)
  | succ fuel ih =>
    intro s row col hr hc hfuel
    cases hrev : s.revealed row col with
    | true =>
      refine ⟨s, revealCell_revealed fuel s row col hrev, RevealFrame.unchanged s, hrev, ?_⟩
      intro _ _ hq
      exact ⟨hq, fun h => by cases h⟩
    | false =>
      have hmark := revealFrame_mark s row col
      have hself : (markRevealed s row col).revealed row col = true := setCell_same _ _ _ _
      by_cases hm : s.gameBoard row col = -1
      · refine ⟨_, revealCell_mine fuel s row col hrev hm, hmark.followedBy (gameOver_frame _),
          (gameOver_frame _).mono _ _ hself, fun _ hsafe _ => absurd hm hsafe⟩
      · by_cases hpos : s.gameBoard row col > 0
        · refine ⟨_, revealCell_number fuel s row col hrev hm hpos,
            hmark.followedBy (checkWin_frame _), (checkWin_frame _).mono _ _ hself, ?_⟩
          intro hplaced _ hq
          have h := checkWin_floodInv (markRevealed s row col)
            (minesPlaced_frame s _ hmark hplaced).total (floodInv_mark s row col hm hq)
          exact ⟨h.1, fun _ => h.2⟩
        · have hloop := revealAdjacentCells_rule (revealCell fuel)
            (fun t => RevealFrame (markRevealed s row col) t ∧
              (MinesPlaced s → FloodInv s → FloodInv t))
            (markRevealed s row col) row col
            ⟨RevealFrame.unchanged _, fun _ hq => floodInv_mark s row col hm hq⟩
            (by
              intro t i j hPt hi hj h1 h2 h3 h4 _
              have hft : RevealFrame s t := hmark.followedBy hPt.1
              have hcard : (hiddenCells t).card < fuel := by
                have := hiddenCells_card_frame _ _ hPt.1
                have := hiddenCells_card_mark s row col hr hc hrev
                omega
              obtain ⟨t', ht', hf', _, hsafe'⟩ := ih t ((row : Int) + i).toNat
                ((col : Int) + j).toNat (by omega) (by omega) hcard
              refine ⟨t', ht', hPt.1.followedBy hf', fun hplaced hq => ?_⟩
              refine (hsafe' (minesPlaced_frame s t hft hplaced) ?_ (hPt.2 hplaced hq)).1
              rw [hft.gameBoard]
              rw [hft.rows] at h2
              rw [hft.cols] at h4
              exact zero_cell_neighbours_safe s row col hr hc hplaced.counts hm hpos i j hi hj
                h1 h2 h3 h4)
          obtain ⟨u, hu, hfu, hqu⟩ := hloop
          refine ⟨checkWin u, ?_, hmark.followedBy (hfu.followedBy (checkWin_frame u)),
            (checkWin_frame u).mono _ _ (hfu.mono _ _ hself), ?_⟩
          · rw [revealCell_zero fuel s row col hrev hm hpos, hu]
            rfl
          · intro hplaced _ hq
            have h := checkWin_floodInv u
              (minesPlaced_frame s _ (hmark.followedBy hfu) hplaced).total (hqu hplaced hq)
            exact ⟨h.1, fun _ => h.2⟩

/-! ### handleCellClick and the reachable states -/

theorem handleCellClick_terminal (s : Minesweeper) (draws : List (Nat × Nat)) (row col : Nat)
    (h : s.gameState = .won ∨ s.gameState = .lost) :
    handleCellClick s draws row col = some s := by
  simp [handleCellClick, h]

theorem handleCellClick_flagged (s : Minesweeper) (draws : List (Nat × Nat)) (row col : Nat)
    (h : s.flagged row col = true) : handleCellClick s draws row col = some s := by
  unfold handleCellClick
  split
  · rfl
  · simp [h]

theorem handleCellClick_eq (s : Minesweeper) (draws : List (Nat × Nat)) (row col : Nat)
    (hstate : ¬ (s.gameState = .won ∨ s.gameState = .lost)) (hflag : s.flagged row col = false) :
    handleCellClick s draws row col =
      (clickStart s draws row col).bind fun s1 => revealCell (revealFuel s1) s1 row col := by
  unfold handleCellClick clickStart
  rw [if_neg hstate]
  simp only [hflag, Bool.false_eq_true, if_false]
  split
  · cases placeMines s draws row col <;> rfl
  · rfl

theorem minesPlaced_congr (s t : Minesweeper) (hr : t.rows = s.rows) (hc : t.cols = s.cols)
    (hb : t.gameBoard = s.gameBoard) (hm : t.mineCount = s.mineCount) (hs : MinesPlaced s) :
    MinesPlaced t := by
  refine ⟨fun r c hr' hc' hsafe => ?_, ?_⟩
  · rw [hr] at hr'
    rw [hc] at hc'
    rw [hb] at hsafe ⊢
    rw [hs.counts r c hr' hc' hsafe]
    simp only [neighbourMineCount, gridCells, hr, hc, hb]
  · rw [hm, ← hs.total]
    simp only [mineCells, gridCells, hr, hc, hb]

theorem clickStart_ready (s s1 : Minesweeper) (draws : List (Nat × Nat)) (row col : Nat)
    (hinv : Inv s) (_hr : row < s.rows) (_hc : col < s.cols) (hd : DrawsInGrid s draws)
    (h : clickStart s draws row col = some s1) : ClickReady s s1 row col := by
  unfold clickStart at h
  cases hfc : s.firstClick with
  | false =>
    rw [hfc] at h
    simp only [Bool.false_eq_true, if_false, Option.some.injEq] at h
    subst h
    exact ⟨rfl, rfl, rfl, rfl, rfl, rfl, rfl, rfl, hfc, hinv.placed hfc, fun _ => rfl,
      fun h => by rw [hfc] at h; cases h⟩
  | true =>
    rw [hfc] at h
    simp only [if_true, Option.map_eq_some'] at h
    obtain ⟨s0, hs0, rfl⟩ := h
    have hzero := (hinv.fresh hfc).1
    have hf := placeMines_frame s s0 draws row col hs0
    have hex : s0.gameBoard row col ≠ -1 := by
      obtain ⟨t, ht, rfl⟩ := placeMines_some s s0 draws row col hs0
      have h0 : s.gameBoard row col ≠ -1 := by rw [hzero]; decide
      have h1 := placeMinesLoop_exclude _ _ _ _ _ _ _ ht h0
      exact fun hm => h1 (((fillNumbers_result t).mines _ _).mp hm)
    have hplaced : MinesPlaced s0 := by
      obtain ⟨t, ht, rfl⟩ := placeMines_some s s0 draws row col hs0
      refine ⟨fillNumbers_countsExact t, ?_⟩
      have hres := fillNumbers_result t
      have hcard := placeMinesLoop_card _ _ _ _ _ _ _ hd (Nat.zero_le _) ht
      rw [mineCells_congr t _ hres.same.rows hres.same.cols hres.mines, hf.mineCount,
        hinv.mineCount]
      rw [mineCells_zero s hzero] at hcard
      simpa using hcard
    exact ⟨hf.currentDifficulty, hf.rows, hf.cols, hf.mineCount, hf.gameState, hf.revealed,
      hf.flagged, hf.flaggedCount, rfl, minesPlaced_congr s0 _ rfl rfl rfl rfl hplaced,
      (fun h => by rw [hfc] at h; cases h), fun _ => ⟨hex, rfl⟩⟩

theorem clickReady_floodInv (s s1 : Minesweeper) (row col : Nat) (hinv : Inv s)
    (hw : s.gameState = .waiting) (h : ClickReady s s1 row col) : FloodInv s1 := by
  refine ⟨(by rw [h.gameState, hw]; decide), (by rw [h.gameState, hw]; decide), fun _ => ?_,
    fun hwon => by rw [h.gameState, hw] at hwon; cases hwon⟩
  intro r hr c hc hm
  rw [h.revealed]
  cases hfc : s.firstClick with
  | true => exact (hinv.fresh hfc).2.1 r c
  | false =>
    have := h.later hfc
    subst this
    exact hinv.waiting hw r hr c hc hm

theorem revealFuel_enough (s : Minesweeper) : (hiddenCells s).card < revealFuel s :=
  Nat.lt_succ_of_le (hiddenCells_card_le s)

theorem inv_of_reveal (s s1 t : Minesweeper) (row col : Nat) (hinv : Inv s)
    (hready : ClickReady s s1 row col) (hframe : RevealFrame s1 t)
    (hnp : t.gameState ≠ .playing) (hwait : t.gameState = .waiting → NoMineRevealed t) :
    Inv t := by
  refine ⟨?_, ?_, ?_, fun h => ?_, fun _ => minesPlaced_frame s1 t hframe hready.placed, hnp,
    hwait⟩
  · rw [hframe.rows, hframe.currentDifficulty, hready.rows, hready.currentDifficulty]
    exact hinv.rows
  · rw [hframe.cols, hframe.currentDifficulty, hready.cols, hready.currentDifficulty]
    exact hinv.cols
  · rw [hframe.mineCount, hframe.currentDifficulty, hready.mineCount, hready.currentDifficulty]
    exact hinv.mineCount
  · rw [hframe.firstClick, hready.firstClick] at h
    cases h

theorem waiting_of_not_terminal (s : Minesweeper) (hinv : Inv s)
    (hstate : ¬ (s.gameState = .won ∨ s.gameState = .lost)) : s.gameState = .waiting := by
  cases h : s.gameState with
  | waiting => rfl
  | playing => exact absurd h hinv.notPlaying
  | won => exact absurd (Or.inl h) hstate
  | lost => exact absurd (Or.inr h) hstate

/-- A click on an unflagged grid cell of a non-terminal state: the call of `revealCell` it ends
with returns, and the resulting state is described by `revealCell_spec`. -/
theorem handleCellClick_reveal (s : Minesweeper) (draws : List (Nat × Nat)) (row col : Nat)
    (hinv : Inv s) (hstate : ¬ (s.gameState = .won ∨ s.gameState = .lost))
    (hflag : s.flagged row col = false) (hr : row < s.rows) (hc : col < s.cols)
    (hd : DrawsInGrid s draws) (s1 : Minesweeper) (h1 : clickStart s draws row col = some s1) :
    ClickReady s s1 row col ∧ FloodInv s1 ∧
      ∃ t, handleCellClick s draws row col = some t ∧
        revealCell (s1.rows * s1.cols + 1) s1 row col = some t ∧ RevealFrame s1 t ∧
        t.revealed row col = true ∧
        (s1.gameBoard row col ≠ -1 →
          FloodInv t ∧ (s1.revealed row col = false →
            (t.gameState = .won ↔ AllSafeRevealed t))) := by
  have hready := clickStart_ready s s1 draws row col hinv hr hc hd h1
  have hq := clickReady_floodInv s s1 row col hinv (waiting_of_not_terminal s hinv hstate) hready
  obtain ⟨t, ht, hframe, hrev, hsafe⟩ := revealCell_spec (revealFuel s1) s1 row col
    (by rw [hready.rows]; exact hr) (by rw [hready.cols]; exact hc) (revealFuel_enough s1)
  refine ⟨hready, hq, t, ?_, ht, hframe, hrev, fun hm => hsafe hready.placed hm hq⟩
  rw [handleCellClick_eq s draws row col hstate hflag, h1]
  exact ht

theorem handleCellClick_inv (s t : Minesweeper) (draws : List (Nat × Nat)) (row col : Nat)
    (hinv : Inv s) (hr : row < s.rows) (hc : col < s.cols) (hd : DrawsInGrid s draws)
    (h : handleCellClick s draws row col = some t) : Inv t := by
  by_cases hstate : s.gameState = .won ∨ s.gameState = .lost
  · rw [handleCellClick_terminal s draws row col hstate] at h
    cases h
    exact hinv
  cases hflag : s.flagged row col with
  | true =>
    rw [handleCellClick_flagged s draws row col hflag] at h
    cases h
    exact hinv
  | false =>
    have heq := handleCellClick_eq s draws row col hstate hflag
    rw [heq] at h
    obtain ⟨s1, h1, _⟩ := Option.bind_eq_some.mp h
    obtain ⟨hready, hq, t', ht', hcell, hframe, _, hsafe⟩ :=
      handleCellClick_reveal s draws row col hinv hstate hflag hr hc hd s1 h1
    rw [← heq, ht'] at h
    cases h
    by_cases hm : s1.gameBoard row col = -1
    · have hs1w : s1.gameState = .waiting := by
        rw [hready.gameState]; exact waiting_of_not_terminal s hinv hstate
      have hhid : s1.revealed row col = false :=
        hq.waiting hs1w row (by rw [hready.rows]; exact hr) col (by rw [hready.cols]; exact hc) hm
      rw [revealCell_mine _ s1 row col hhid hm] at hcell
      cases hcell
      refine inv_of_reveal s s1 _ row col hinv hready hframe ?_ ?_
      · rw [gameOver_gameState]; decide
      · intro hw; rw [gameOver_gameState] at hw; cases hw
    · have hqt := (hsafe hm).1
      exact inv_of_reveal s s1 _ row col hinv hready hframe hqt.notPlaying hqt.waiting

theorem createBoard_inv (s : Minesweeper) (hfc : s.firstClick = true)
    (hst : s.gameState = .waiting) : Inv (createBoard s) :=
  ⟨rfl, rfl, rfl, fun _ => ⟨fun _ _ => rfl, fun _ _ => rfl, hst⟩,
    (fun h => by
      have h2 : s.firstClick = false := h
      rw [hfc] at h2
      cases h2),
    (fun h => by
      have h2 : s.gameState = .playing := h
      rw [hst] at h2
      cases h2),
    fun _ _ _ _ _ _ => rfl⟩

theorem new_inv : Inv Minesweeper.new := createBoard_inv _ rfl rfl

theorem newGame_inv (s : Minesweeper) : Inv (newGame s) := by
  unfold newGame
  apply createBoard_inv
  · unfold stopTimer; split <;> rfl
  · rw [stopTimer_gameState]

theorem handleRightClick_inv (s : Minesweeper) (row col : Nat) (hinv : Inv s) :
    Inv (handleRightClick s row col) := by
  have key : ∀ (f : Nat → Nat → Bool) (n : Int),
      Inv { s with flagged := f, flaggedCount := n } := fun f n =>
    ⟨hinv.rows, hinv.cols, hinv.mineCount, hinv.fresh,
      fun h => minesPlaced_congr s _ rfl rfl rfl rfl (hinv.placed h), hinv.notPlaying,
      hinv.waiting⟩
  unfold handleRightClick
  split
  · exact hinv
  · split
    · exact hinv
    · split
      · exact key _ _
      · exact key _ _

/-- Every reachable state satisfies the invariant. -/
theorem reachable_inv (s : Minesweeper) (h : Reachable s) : Inv s := by
  induction h with
  | init => exact new_inv
  | click s s' draws row col _ hr hc hd hclick ih =>
    exact handleCellClick_inv s s' draws row col ih hr hc hd hclick
  | rightClick s row col _ _ _ ih => exact handleRightClick_inv s row col ih
  | newGame s _ _ => exact newGame_inv s
  | selectDifficulty s d _ _ => exact newGame_inv _

theorem allSafeRevealed_iff_card (s : Minesweeper) (htotal : (mineCells s).card = s.mineCount) :
    AllSafeRevealed s ↔ (revealedSafeCells s).card = s.rows * s.cols - s.mineCount := by
  have hcard := card_safeCells s
  have hsub : revealedSafeCells s ⊆ safeCells s := Finset.filter_subset _ _
  constructor
  · intro h
    have : revealedSafeCells s = safeCells s := by
      apply Finset.filter_true_of_mem
      intro p hp
      simp only [safeCells, gridCells, Finset.mem_filter, Finset.mem_product,
        Finset.mem_range] at hp
      exact h p.1 hp.1.1 p.2 hp.1.2 hp.2
    rw [this]
    omega
  · intro h r hr c hc hsafe
    have heq : revealedSafeCells s = safeCells s :=
      Finset.eq_of_subset_of_card_le hsub (by omega)
    have hmem : (r, c) ∈ safeCells s := by
      simp only [safeCells, gridCells, Finset.mem_filter, Finset.mem_product, Finset.mem_range]
      exact ⟨⟨hr, hc⟩, hsafe⟩
    rw [← heq] at hmem
    simp only [revealedSafeCells, Finset.mem_filter] at hmem
    exact hmem.2

/-- The value `playing` listed for `gameState` is never taken in a reachable state. -/
theorem reachable_not_playing (s : Minesweeper) (h : Reachable s) : s.gameState ≠ .playing :=
  (reachable_inv s h).notPlaying

/-! ### Partial-correctness rules for the flood -/

/-- Loop rule for a returning `foldlM`: `P` is kept by the body, `R` relates a state to every
later one, and `Q a`, once established by the iteration on `a`, is stable along `R`. -/
theorem foldlM_some_rule {σ α : Type} (f : σ → α → Option σ) (P : σ → Prop)
    (R : σ → σ → Prop) (Q : α → σ → Prop) (hrefl : ∀ s, R s s)
    (htrans : ∀ s t u, R s t → R t u → R s u) (hstable : ∀ a t u, Q a t → R t u → Q a u)
    (l : List α) :
    ∀ (s t : σ), l.foldlM f s = some t → P s →
      (∀ u a v, a ∈ l → P u → f u a = some v → P v ∧ R u v ∧ Q a v) →
      P t ∧ R s t ∧ ∀ a ∈ l, Q a t := by
  induction l with
  | nil =>
    intro s t h hP _
    simp only [List.foldlM_nil] at h
    cases h
    exact ⟨hP, hrefl s, fun _ ha => by cases ha⟩
  | cons a l ih =>
    intro s t h hP hstep
    simp only [List.foldlM_cons, Option.bind_eq_bind, Option.bind_eq_some] at h
    obtain ⟨v, hv, hrest⟩ := h
    obtain ⟨hPv, hRv, hQv⟩ := hstep s a v (List.mem_cons_self _ _) hP hv
    obtain ⟨hPt, hRt, hQt⟩ := ih v t hrest hPv
      (fun u b w hb => hstep u b w (List.mem_cons_of_mem _ hb))
    refine ⟨hPt, htrans _ _ _ hRv hRt, fun b hb => ?_⟩
    rcases List.mem_cons.mp hb with rfl | hb'
    · exact hstable _ _ _ hQv hRt
    · exact hQt b hb'

theorem visited_stable (row col : Nat) (i j : Int) (t u : Minesweeper) (hf : RevealFrame t u)
    (h : (row : Int) + i ≥ 0 → (row : Int) + i < t.rows → (col : Int) + j ≥ 0 →
      (col : Int) + j < t.cols →
      t.revealed ((row : Int) + i).toNat ((col : Int) + j).toNat = true) :
    (row : Int) + i ≥ 0 → (row : Int) + i < u.rows → (col : Int) + j ≥ 0 →
      (col : Int) + j < u.cols →
      u.revealed ((row : Int) + i).toNat ((col : Int) + j).toNat = true := by
  intro h1 h2 h3 h4
  rw [hf.rows] at h2
  rw [hf.cols] at h4
  exact hf.mono _ _ (h h1 h2 h3 h4)

/-- Loop rule for a returning `revealAdjacentCells`: a condition kept by every call made on a
hidden in-grid neighbour holds at the end, and when each such call leaves its target revealed
and only adds `revealed` marks, all visited grid positions are revealed at the end. -/
theorem revealAdjacentCells_some_rule (reveal : Minesweeper → Nat → Nat → Option Minesweeper)
    (P : Minesweeper → Prop) (s t : Minesweeper) (row col : Nat)
    (h : revealAdjacentCells reveal s row col = some t) (hP : P s)
    (hstep : ∀ u i j v, P u → RevealFrame s u → i ∈ offsets → j ∈ offsets →
      (row : Int) + i ≥ 0 → (row : Int) + i < u.rows →
      (col : Int) + j ≥ 0 → (col : Int) + j < u.cols →
      u.revealed ((row : Int) + i).toNat ((col : Int) + j).toNat = false →
      reveal u ((row : Int) + i).toNat ((col : Int) + j).toNat = some v →
      P v ∧ RevealFrame u v ∧ v.revealed ((row : Int) + i).toNat ((col : Int) + j).toNat = true) :
    P t ∧ RevealFrame s t ∧ VisitedRevealed t row col := by
  unfold revealAdjacentCells at h
  have hout := foldlM_some_rule _ (fun u => P u ∧ RevealFrame s u) RevealFrame
    (fun i u => ∀ j ∈ offsets, (row : Int) + i ≥ 0 → (row : Int) + i < u.rows →
      (col : Int) + j ≥ 0 → (col : Int) + j < u.cols →
      u.revealed ((row : Int) + i).toNat ((col : Int) + j).toNat = true)
    RevealFrame.unchanged (fun _ _ _ => RevealFrame.followedBy)
    (fun i t u hq hf j hj => visited_stable row col i j t u hf (hq j hj))
    offsets s t h ⟨hP, RevealFrame.unchanged s⟩
    (by
      intro u i v hi hPu hinner
      have hin := foldlM_some_rule _ (fun w => P w ∧ RevealFrame s w) RevealFrame
        (fun j w => (row : Int) + i ≥ 0 → (row : Int) + i < w.rows →
          (col : Int) + j ≥ 0 → (col : Int) + j < w.cols →
          w.revealed ((row : Int) + i).toNat ((col : Int) + j).toNat = true)
        RevealFrame.unchanged (fun _ _ _ => RevealFrame.followedBy)
        (fun j t u hq hf => visited_stable row col i j t u hf hq)
        offsets u v hinner hPu
        (by
          intro w j x hj hPw hbody
          simp only at hbody
          split at hbody
          · rename_i hin
            split at hbody
            · rename_i hrev
              obtain ⟨h1, h2, h3⟩ := hstep w i j x hPw.1 hPw.2 hi hj hin.1 hin.2.1 hin.2.2.1
                hin.2.2.2 (by simpa using hrev) hbody
              exact ⟨⟨h1, hPw.2.followedBy h2⟩, h2, fun _ _ _ _ => h3⟩
            · rename_i hrev
              cases hbody
              exact ⟨hPw, RevealFrame.unchanged _, fun _ _ _ _ => by simpa using hrev⟩
          · rename_i hin
            cases hbody
            exact ⟨hPw, RevealFrame.unchanged _, fun h1 h2 h3 h4 => absurd ⟨h1, h2, h3, h4⟩ hin⟩)
      exact ⟨hin.1, hin.2.1, hin.2.2⟩)
  exact ⟨hout.1.1, hout.2.1, fun i hi j hj => hout.2.2 i hi j hj⟩

theorem visitedRevealed_frame (s t : Minesweeper) (row col : Nat) (hf : RevealFrame s t)
    (h : VisitedRevealed s row col) : VisitedRevealed t row col :=
  fun i hi j hj => visited_stable row col i j s t hf (h i hi j hj)

/-- The closure condition survives a step that only adds `revealed` marks and adds none on a
grid cell storing `0` outside the pending cells. -/
theorem closedExcept_frame (s t : Minesweeper) (pending : Nat → Nat → Prop)
    (hf : RevealFrame s t)
    (hzero : ∀ r < s.rows, ∀ c < s.cols, s.gameBoard r c = 0 → ¬ pending r c →
      t.revealed r c = true → s.revealed r c = true)
    (h : ClosedExcept s pending) : ClosedExcept t pending := by
  intro r hr c hc hrev hz hp
  rw [hf.rows] at hr
  rw [hf.cols] at hc
  rw [hf.gameBoard] at hz
  exact visitedRevealed_frame s t r c hf (h r hr c hc (hzero r hr c hc hz hp hrev) hz hp)

theorem checkWin_safe_revealed (s : Minesweeper) (r c : Nat) (hsafe : s.gameBoard r c ≠ -1) :
    (checkWin s).revealed r c = s.revealed r c := by
  unfold checkWin
  simp only
  split
  · exact gameWon_safe_revealed s r c hsafe
  · rfl

theorem closedExcept_checkWin (s : Minesweeper) (pending : Nat → Nat → Prop)
    (h : ClosedExcept s pending) : ClosedExcept (checkWin s) pending :=
  closedExcept_frame s _ pending (checkWin_frame s)
    (fun r _ c _ hz _ hrev => by
      rw [checkWin_safe_revealed s r c (by rw [hz]; decide)] at hrev
      exact hrev) h

theorem closedExcept_gameOver (s : Minesweeper) (pending : Nat → Nat → Prop)
    (h : ClosedExcept s pending) : ClosedExcept (gameOver s) pending :=
  closedExcept_frame s _ pending (gameOver_frame s)
    (fun r _ c _ hz _ hrev => by
      rcases (gameOver_revealed s r c).mp hrev with h1 | ⟨_, _, h3, _⟩
      · exact h1
      · rw [hz] at h3; cases h3) h

theorem closedExcept_mark (s : Minesweeper) (row col : Nat) (pending : Nat → Nat → Prop)
    (h : ClosedExcept s pending) :
    ClosedExcept (markRevealed s row col) fun r c => pending r c ∨ (r = row ∧ c = col) :=
  closedExcept_frame s _ _ (revealFrame_mark s row col)
    (fun r hr c hc hz hp hrev => by
      have hne : ¬ (r = row ∧ c = col) := fun hh => hp (Or.inr hh)
      simpa [markRevealed, setCell_other _ _ _ _ _ _ hne] using hrev)
    (fun r hr c hc hrev hz hp => h r hr c hc hrev hz (fun hh => hp (Or.inl hh)))

/-- Partial correctness of `revealCell`: a returning call only adds `revealed` marks, leaves its
target revealed, and keeps the closure condition of the flood for every set of pending cells. -/
theorem revealCell_closed : ∀ (fuel : Nat) (s t : Minesweeper) (row col : Nat),
    revealCell fuel s row col = some t →
    RevealFrame s t ∧ t.revealed row col = true ∧
      ∀ pending : Nat → Nat → Prop, ClosedExcept s pending → ClosedExcept t pending := by
  intro fuel
  induction fuel with
  | zero => intro s t row col h; simp [revealCell] at h
  | succ fuel ih =>
    intro s t row col h
    cases hrev : s.revealed row col with
    | true =>
      rw [revealCell_revealed fuel s row col hrev] at h
      cases h
      exact ⟨RevealFrame.unchanged s, hrev, fun _ hc => hc⟩
    | false =>
      have hmark := revealFrame_mark s row col
      have hself : (markRevealed s row col).revealed row col = true := setCell_same _ _ _ _
      have hmarkClosed : ∀ pending : Nat → Nat → Prop, s.gameBoard row col ≠ 0 →
          ClosedExcept s pending → ClosedExcept (markRevealed s row col) pending :=
        fun pending hnz hcl => closedExcept_frame s _ pending hmark
          (fun r _ c _ hz _ hrev' => by
            have hne : ¬ (r = row ∧ c = col) := by
              rintro ⟨rfl, rfl⟩
              exact hnz hz
            simpa [markRevealed, setCell_other _ _ _ _ _ _ hne] using hrev') hcl
      by_cases hm : s.gameBoard row col = -1
      · rw [revealCell_mine fuel s row col hrev hm] at h
        cases h
        refine ⟨hmark.followedBy (gameOver_frame _), (gameOver_frame _).mono _ _ hself,
          fun pending hcl => closedExcept_gameOver _ pending
            (hmarkClosed pending (by rw [hm]; decide) hcl)⟩
      · by_cases hpos : s.gameBoard row col > 0
        · rw [revealCell_number fuel s row col hrev hm hpos] at h
          cases h
          refine ⟨hmark.followedBy (checkWin_frame _), (checkWin_frame _).mono _ _ hself,
            fun pending hcl => closedExcept_checkWin _ pending
              (hmarkClosed pending (by omega) hcl)⟩
        · rw [revealCell_zero fuel s row col hrev hm hpos] at h
          obtain ⟨u, hu, rfl⟩ := Option.map_eq_some'.mp h
          have hloop := revealAdjacentCells_some_rule (revealCell fuel)
            (fun v => ∀ pending : Nat → Nat → Prop, ClosedExcept s pending →
              ClosedExcept v fun r c => pending r c ∨ (r = row ∧ c = col))
            (markRevealed s row col) u row col hu
            (fun pending hcl => closedExcept_mark s row col pending hcl)
            (by
              intro v i j w hPv _ _ _ _ _ _ _ _ hcall
              obtain ⟨hf, hr, hcl⟩ := ih v w _ _ hcall
              exact ⟨fun pending hp => hcl _ (hPv pending hp), hf, hr⟩)
          obtain ⟨hPu, hfu, hvis⟩ := hloop
          refine ⟨hmark.followedBy (hfu.followedBy (checkWin_frame u)),
            (checkWin_frame u).mono _ _ (hfu.mono _ _ hself), fun pending hcl => ?_⟩
          apply closedExcept_checkWin
          intro r hr c hc hrev' hz hp
          by_cases heq : r = row ∧ c = col
          · obtain ⟨rfl, rfl⟩ := heq
            exact hvis
          · exact hPu pending hcl r hr c hc hrev' hz (fun hh => hh.elim hp heq)

/-- A condition kept by the three state changes of `revealCell` (marking a cell, `gameOver`,
`checkWin`) is kept by every returning call. -/
theorem revealCell_preserves (P : Minesweeper → Prop)
    (hmark : ∀ s r c, P s → P (markRevealed s r c)) (hover : ∀ s, P s → P (gameOver s))
    (hwin : ∀ s, P s → P (checkWin s)) :
    ∀ (fuel : Nat) (s t : Minesweeper) (row col : Nat),
      revealCell fuel s row col = some t → P s → P t := by
  intro fuel
  induction fuel with
  | zero => intro s t row col h; simp [revealCell] at h
  | succ fuel ih =>
    intro s t row col h hP
    cases hrev : s.revealed row col with
    | true =>
      rw [revealCell_revealed fuel s row col hrev] at h
      cases h
      exact hP
    | false =>
      by_cases hm : s.gameBoard row col = -1
      · rw [revealCell_mine fuel s row col hrev hm] at h
        cases h
        exact hover _ (hmark s row col hP)
      · by_cases hpos : s.gameBoard row col > 0
        · rw [revealCell_number fuel s row col hrev hm hpos] at h
          cases h
          exact hwin _ (hmark s row col hP)
        · rw [revealCell_zero fuel s row col hrev hm hpos] at h
          obtain ⟨u, hu, rfl⟩ := Option.map_eq_some'.mp h
          have hloop := revealAdjacentCells_some_rule (revealCell fuel) P
            (markRevealed s row col) u row col hu (hmark s row col hP)
            (by
              intro v i j w hPv _ _ _ _ _ _ _ _ hcall
              have hc := revealCell_closed fuel v w _ _ hcall
              exact ⟨ih v w _ _ hcall hPv, hc.1, hc.2.1⟩)
          exact hwin u hloop.1

/-! ### The timer through the flood -/

theorem stopTimer_activeIntervals (s : Minesweeper) :
    (stopTimer s).activeIntervals =
      if s.timerInterval then s.activeIntervals - 1 else s.activeIntervals := by
  unfold stopTimer
  split <;> rfl

theorem floodTimer_end (s : Minesweeper) (g : GameState) (hg : g = .won ∨ g = .lost)
    (h : FloodTimer s) : FloodTimer (revealAllMines (stopTimer { s with gameState := g })) := by
  have hsh := revealAllMines_shown (stopTimer { s with gameState := g })
  unfold FloodTimer
  rw [hsh.activeIntervals, hsh.timerInterval, hsh.gameState, stopTimer_timerInterval,
    stopTimer_activeIntervals, stopTimer_gameState]
  have h1 := h.1
  constructor
  · show (if s.timerInterval = true then s.activeIntervals - 1 else s.activeIntervals) = _
    split
    · rename_i ht
      rw [ht] at h1
      simp only [if_true] at h1
      rw [h1]
      rfl
    · rename_i ht
      have ht' : s.timerInterval = false := by simpa using ht
      rw [ht'] at h1
      simpa using h1
  · constructor
    · intro hh; cases hh
    · rintro ⟨h2, h3⟩
      rcases hg with rfl | rfl
      · exact absurd rfl h2
      · exact absurd rfl h3

theorem floodTimer_gameOver (s : Minesweeper) (h : FloodTimer s) : FloodTimer (gameOver s) :=
  floodTimer_end s .lost (Or.inr rfl) h

theorem floodTimer_checkWin (s : Minesweeper) (h : FloodTimer s) : FloodTimer (checkWin s) := by
  unfold checkWin
  simp only
  split
  · exact floodTimer_end s .won (Or.inl rfl) h
  · exact h

theorem revealCell_floodTimer (fuel : Nat) (s t : Minesweeper) (row col : Nat)
    (h : revealCell fuel s row col = some t) (hs : FloodTimer s) : FloodTimer t :=
  revealCell_preserves FloodTimer (fun _ _ _ h => h) floodTimer_gameOver floodTimer_checkWin
    fuel s t row col h hs

/-! ### The flood never reaches a mine -/

theorem noLoss_same (s : Minesweeper) : NoLoss s s :=
  ⟨Or.inl rfl, fun _ _ _ _ _ h => Or.inl h⟩

theorem noLoss_then (a b c : Minesweeper) (hf : RevealFrame a b) (h₁ : NoLoss a b)
    (h₂ : NoLoss b c) : NoLoss a c := by
  refine ⟨?_, fun r hr col hc hm hrev => ?_⟩
  · rcases h₂.gameState with h | h
    · rcases h₁.gameState with h' | h'
      · exact Or.inl (h.trans h')
      · exact Or.inr (h.trans h')
    · exact Or.inr h
  · have hb := h₂.mines r (by rw [hf.rows]; exact hr) col (by rw [hf.cols]; exact hc)
      (by rw [hf.gameBoard]; exact hm) hrev
    rcases hb with hb | ⟨hw, hfl⟩
    · rcases h₁.mines r hr col hc hm hb with ha | ⟨hw, hfl⟩
      · exact Or.inl ha
      · right
        refine ⟨?_, hfl⟩
        rcases h₂.gameState with h | h
        · exact h.trans hw
        · exact h
    · right
      rw [hf.flagged] at hfl
      exact ⟨hw, hfl⟩

theorem gameWon_revealed (s : Minesweeper) (r c : Nat) :
    (gameWon s).revealed r c = true ↔
      (s.revealed r c = true ∨
        (r < s.rows ∧ c < s.cols ∧ s.gameBoard r c = -1 ∧ s.flagged r c = false)) := by
  unfold gameWon
  rw [revealAllMines_revealed]
  have hf := revealFrame_stopTimer s .won
  rw [stopTimer_revealed, hf.rows, hf.cols, hf.gameBoard, hf.flagged]

theorem noLoss_checkWin (s : Minesweeper) : NoLoss s (checkWin s) := by
  unfold checkWin
  simp only
  split
  · refine ⟨Or.inr (gameWon_gameState s), fun r _ c _ _ hrev => ?_⟩
    rcases (gameWon_revealed s r c).mp hrev with h | ⟨_, _, _, h4⟩
    · exact Or.inl h
    · exact Or.inr ⟨gameWon_gameState s, h4⟩
  · exact noLoss_same s

theorem noLoss_mark (s : Minesweeper) (row col : Nat) (hsafe : s.gameBoard row col ≠ -1) :
    NoLoss s (markRevealed s row col) := by
  refine ⟨Or.inl rfl, fun r _ c _ hm hrev => Or.inl ?_⟩
  have hne : ¬ (r = row ∧ c = col) := by
    rintro ⟨rfl, rfl⟩
    exact hsafe hm
  simpa [markRevealed, setCell_other _ _ _ _ _ _ hne] using hrev

theorem countsExact_frame (s t : Minesweeper) (h : RevealFrame s t) (hs : CountsExact s) :
    CountsExact t := by
  intro r c hr hc hsafe
  rw [h.rows] at hr
  rw [h.cols] at hc
  rw [h.gameBoard] at hsafe ⊢
  rw [hs r c hr hc hsafe]
  simp only [neighbourMineCount, gridCells, h.rows, h.cols, h.gameBoard]

/-- On a board with exact counts, a returning `revealCell` on a non-mine grid cell never calls
`gameOver`, and reveals a mine only through `gameWon`. -/
theorem revealCell_noLoss : ∀ (fuel : Nat) (s t : Minesweeper) (row col : Nat),
    revealCell fuel s row col = some t → CountsExact s → row < s.rows → col < s.cols →
    s.gameBoard row col ≠ -1 → NoLoss s t := by
  intro fuel
  induction fuel with
  | zero => intro s t row col h; simp [revealCell] at h
  | succ fuel ih =>
    intro s t row col h hcounts hr hc hsafe
    cases hrev : s.revealed row col with
    | true =>
      rw [revealCell_revealed fuel s row col hrev] at h
      cases h
      exact noLoss_same s
    | false =>
      have hmark := revealFrame_mark s row col
      have hnl := noLoss_mark s row col hsafe
      by_cases hpos : s.gameBoard row col > 0
      · rw [revealCell_number fuel s row col hrev hsafe hpos] at h
        cases h
        exact noLoss_then _ _ _ hmark hnl (noLoss_checkWin _)
      · rw [revealCell_zero fuel s row col hrev hsafe hpos] at h
        obtain ⟨u, hu, rfl⟩ := Option.map_eq_some'.mp h
        have hloop := revealAdjacentCells_some_rule (revealCell fuel)
          (fun v => NoLoss (markRevealed s row col) v)
          (markRevealed s row col) u row col hu (noLoss_same _)
          (by
            intro v i j w hPv hfv hi hj h1 h2 h3 h4 _ hcall
            have hcl := revealCell_closed fuel v w _ _ hcall
            have hsv : RevealFrame s v := hmark.followedBy hfv
            have hnbr : v.gameBoard ((row : Int) + i).toNat ((col : Int) + j).toNat ≠ -1 := by
              rw [hsv.gameBoard]
              rw [hsv.rows] at h2
              rw [hsv.cols] at h4
              exact zero_cell_neighbours_safe s row col hr hc hcounts hsafe hpos i j hi hj
                h1 h2 h3 h4
            have hstep := ih v w _ _ hcall (countsExact_frame s v hsv hcounts) (by omega)
              (by omega) hnbr
            exact ⟨noLoss_then _ _ _ hfv hPv hstep, hcl.1, hcl.2.1⟩)
        have hu1 : NoLoss s u := noLoss_then _ _ _ hmark hnl hloop.1
        exact noLoss_then _ _ _ (hmark.followedBy hloop.2.1) hu1 (noLoss_checkWin u)

/-! ### Termination of the flood -/

/-- With a recursion budget of at least one level and at least as many levels as there are
hidden cells, `revealCell` on a grid cell returns. -/
theorem revealCell_returns : ∀ (fuel : Nat) (s : Minesweeper) (row col : Nat),
    row < s.rows → col < s.cols → 1 ≤ fuel → (hiddenCells s).card ≤ fuel →
    ∃ t, revealCell fuel s row col = some t ∧ RevealFrame s t := by
  intro fuel
  induction fuel with
  | zero => intro s row col _ _ h; exact absurd h (by decide)
  | succ fuel ih =>
    intro s row col hr hc _ hfuel
    cases hrev : s.revealed row col with
    | true => exact ⟨s, revealCell_revealed fuel s row col hrev, RevealFrame.unchanged s⟩
    | false =>
      have hmark := revealFrame_mark s row col
      by_cases hm : s.gameBoard row col = -1
      · exact ⟨_, revealCell_mine fuel s row col hrev hm, hmark.followedBy (gameOver_frame _)⟩
      · by_cases hpos : s.gameBoard row col > 0
        · exact ⟨_, revealCell_number fuel s row col hrev hm hpos,
            hmark.followedBy (checkWin_frame _)⟩
        · have hloop := revealAdjacentCells_rule (revealCell fuel)
            (fun t => RevealFrame (markRevealed s row col) t)
            (markRevealed s row col) row col (RevealFrame.unchanged _)
            (by
              intro t i j hft _ _ h1 h2 h3 h4 hhid
              have hle : (hiddenCells t).card ≤ fuel := by
                have := hiddenCells_card_frame _ _ hft
                have := hiddenCells_card_mark s row col hr hc hrev
                omega
              have hpos' : 0 < (hiddenCells t).card := by
                apply Finset.card_pos.mpr
                refine ⟨(((row : Int) + i).toNat, ((col : Int) + j).toNat), ?_⟩
                simp only [hiddenCells, gridCells, Finset.mem_filter, Finset.mem_product,
                  Finset.mem_range]
                exact ⟨⟨by omega, by omega⟩, hhid⟩
              obtain ⟨t', ht', hf'⟩ := ih t ((row : Int) + i).toNat ((col : Int) + j).toNat
                (by omega) (by omega) (by omega) hle
              exact ⟨t', ht', hft.followedBy hf'⟩)
          obtain ⟨u, hu, hfu⟩ := hloop
          refine ⟨checkWin u, ?_, hmark.followedBy (hfu.followedBy (checkWin_frame u))⟩
          rw [revealCell_zero fuel s row col hrev hm hpos, hu]
          rfl

theorem foldlM_mono {σ α : Type} (f g : σ → α → Option σ)
    (hfg : ∀ s a t, f s a = some t → g s a = some t) (l : List α) :
    ∀ (s t : σ), l.foldlM f s = some t → l.foldlM g s = some t := by
  induction l with
  | nil => intro s t h; exact h
  | cons a l ih =>
    intro s t h
    simp only [List.foldlM_cons, Option.bind_eq_bind, Option.bind_eq_some] at h ⊢
    obtain ⟨v, hv, hrest⟩ := h
    exact ⟨v, hfg s a v hv, ih v t hrest⟩

theorem revealAdjacentCells_mono (f g : Minesweeper → Nat → Nat → Option Minesweeper)
    (hfg : ∀ s r c t, f s r c = some t → g s r c = some t) (s t : Minesweeper) (row col : Nat)
    (h : revealAdjacentCells f s row col = some t) :
    revealAdjacentCells g s row col = some t := by
  unfold revealAdjacentCells at h ⊢
  refine foldlM_mono _ _ (fun u i v hinner => ?_) offsets s t h
  refine foldlM_mono _ _ (fun w j x hbody => ?_) offsets u v hinner
  simp only at hbody ⊢
  split
  · rename_i hin
    rw [if_pos hin] at hbody
    split
    · rename_i hrev
      rw [if_pos hrev] at hbody
      exact hfg _ _ _ _ hbody
    · rename_i hrev
      rw [if_neg hrev] at hbody
      exact hbody
  · rename_i hin
    rw [if_neg hin] at hbody
    exact hbody

/-- A larger recursion budget does not change the result of `revealCell`. -/
theorem revealCell_fuel_succ : ∀ (fuel : Nat) (s t : Minesweeper) (row col : Nat),
    revealCell fuel s row col = some t → revealCell (fuel + 1) s row col = some t := by
  intro fuel
  induction fuel with
  | zero => intro s t row col h; simp [revealCell] at h
  | succ fuel ih =>
    intro s t row col h
    cases hrev : s.revealed row col with
    | true =>
      rw [revealCell_revealed fuel s row col hrev] at h
      rw [revealCell_revealed (fuel + 1) s row col hrev]
      exact h
    | false =>
      by_cases hm : s.gameBoard row col = -1
      · rw [revealCell_mine fuel s row col hrev hm] at h
        rw [revealCell_mine (fuel + 1) s row col hrev hm]
        exact h
      · by_cases hpos : s.gameBoard row col > 0
        · rw [revealCell_number fuel s row col hrev hm hpos] at h
          rw [revealCell_number (fuel + 1) s row col hrev hm hpos]
          exact h
        · rw [revealCell_zero fuel s row col hrev hm hpos] at h
          rw [revealCell_zero (fuel + 1) s row col hrev hm hpos]
          obtain ⟨u, hu, rfl⟩ := Option.map_eq_some'.mp h
          rw [revealAdjacentCells_mono (revealCell fuel) (revealCell (fuel + 1))
            (fun v r c w => ih v w r c) _ u row col hu]
          rfl

theorem revealCell_fuel_le (fuel fuel' : Nat) (hle : fuel ≤ fuel') (s t : Minesweeper)
    (row col : Nat) (h : revealCell fuel s row col = some t) :
    revealCell fuel' s row col = some t := by
  induction fuel', hle using Nat.le_induction with
  | base => exact h
  | succ n _ ih => exact revealCell_fuel_succ n s t row col ih

/-! ### Flags, timer and flood closure in the reachable states -/

theorem handleCellClick_cases (s t : Minesweeper) (draws : List (Nat × Nat)) (row col : Nat)
    (h : handleCellClick s draws row col = some t) :
    t = s ∨ (¬ (s.gameState = .won ∨ s.gameState = .lost) ∧ s.flagged row col = false ∧
      ∃ s1, clickStart s draws row col = some s1 ∧
        revealCell (revealFuel s1) s1 row col = some t) := by
  by_cases hstate : s.gameState = .won ∨ s.gameState = .lost
  · rw [handleCellClick_terminal s draws row col hstate] at h
    cases h
    exact Or.inl rfl
  cases hflag : s.flagged row col with
  | true =>
    rw [handleCellClick_flagged s draws row col hflag] at h
    cases h
    exact Or.inl rfl
  | false =>
    rw [handleCellClick_eq s draws row col hstate hflag] at h
    obtain ⟨s1, h1, hcell⟩ := Option.bind_eq_some.mp h
    exact Or.inr ⟨hstate, rfl, s1, h1, hcell⟩

theorem clickStart_first (s s1 : Minesweeper) (draws : List (Nat × Nat)) (row col : Nat)
    (hfc : s.firstClick = true) (h : clickStart s draws row col = some s1) :
    s1.timerInterval = true ∧ s1.activeIntervals = s.activeIntervals + 1 := by
  simp only [clickStart, hfc, if_true, Option.map_eq_some'] at h
  obtain ⟨s0, hs0, rfl⟩ := h
  have hf := placeMines_frame s s0 draws row col hs0
  exact ⟨rfl, by show s0.activeIntervals + 1 = _; rw [hf.activeIntervals]⟩

theorem flaggedCells_congr (s t : Minesweeper) (hr : t.rows = s.rows) (hc : t.cols = s.cols)
    (hf : t.flagged = s.flagged) : flaggedCells t = flaggedCells s := by
  simp only [flaggedCells, gridCells, hr, hc, hf]

theorem clickStart_floodTimer (s s1 : Minesweeper) (draws : List (Nat × Nat)) (row col : Nat)
    (hstate : ¬ (s.gameState = .won ∨ s.gameState = .lost)) (ht : TimerInv s)
    (hready : ClickReady s s1 row col) (h : clickStart s draws row col = some s1) :
    FloodTimer s1 := by
  have hnw : s.gameState ≠ .won := fun hh => hstate (Or.inl hh)
  have hnl : s.gameState ≠ .lost := fun hh => hstate (Or.inr hh)
  cases hfc : s.firstClick with
  | true =>
    obtain ⟨h1, h2⟩ := clickStart_first s s1 draws row col hfc h
    have hoff : s.timerInterval = false := by
      cases hb : s.timerInterval with
      | false => rfl
      | true =>
        have := (ht.active.mp hb).1
        rw [hfc] at this
        cases this
    have h0 := ht.alive
    rw [hoff] at h0
    simp only [Bool.false_eq_true, if_false] at h0
    refine ⟨?_, ?_⟩
    · rw [h1, h2, h0]
      rfl
    · rw [h1, hready.gameState]
      exact ⟨fun _ => ⟨hnw, hnl⟩, fun _ => rfl⟩
  | false =>
    have := hready.later hfc
    subst this
    have hon : s1.timerInterval = true := ht.active.mpr ⟨hfc, hnw, hnl⟩
    exact ⟨ht.alive, fun _ => ⟨hnw, hnl⟩, fun _ => hon⟩

theorem handleCellClick_inv2 (s t : Minesweeper) (draws : List (Nat × Nat)) (row col : Nat)
    (hinv : Inv s) (h2 : Inv2 s) (hr : row < s.rows) (hc : col < s.cols)
    (hd : DrawsInGrid s draws) (h : handleCellClick s draws row col = some t) : Inv2 t := by
  rcases handleCellClick_cases s t draws row col h with rfl | ⟨hstate, _, s1, h1, hcell⟩
  · exact h2
  have hready := clickStart_ready s s1 draws row col hinv hr hc hd h1
  obtain ⟨hframe, _, hclosed⟩ := revealCell_closed _ s1 t row col hcell
  have hft := revealCell_floodTimer _ s1 t row col hcell
    (clickStart_floodTimer s s1 draws row col hstate h2.timer hready h1)
  refine ⟨?_, ⟨hft.1, ?_⟩, hclosed _ ?_⟩
  · rw [hframe.flaggedCount, hready.flaggedCount, h2.flags,
      flaggedCells_congr s1 t hframe.rows hframe.cols hframe.flagged,
      flaggedCells_congr s s1 hready.rows hready.cols hready.flagged]
  · rw [hft.2, hframe.firstClick, hready.firstClick]
    exact ⟨fun hh => ⟨rfl, hh⟩, fun hh => hh.2⟩
  · cases hfc : s.firstClick with
    | true =>
      intro r _ c _ hrev
      rw [hready.revealed, (hinv.fresh hfc).2.1 r c] at hrev
      cases hrev
    | false =>
      rw [hready.later hfc]
      exact h2.closed

theorem flaggedCells_flag (s : Minesweeper) (row col : Nat) (hr : row < s.rows)
    (hc : col < s.cols) (n : Int) :
    flaggedCells { s with flagged := setCell s.flagged row col true, flaggedCount := n } =
      insert (row, col) (flaggedCells s) := by
  ext ⟨r, c⟩
  simp only [flaggedCells, gridCells, Finset.mem_filter, Finset.mem_product, Finset.mem_range,
    Finset.mem_insert, Prod.mk.injEq, setCell]
  by_cases h : r = row ∧ c = col
  · obtain ⟨rfl, rfl⟩ := h
    simp [hr, hc]
  · simp [h]

theorem flaggedCells_unflag (s : Minesweeper) (row col : Nat) (n : Int) :
    flaggedCells { s with flagged := setCell s.flagged row col false, flaggedCount := n } =
      (flaggedCells s).erase (row, col) := by
  ext ⟨r, c⟩
  simp only [flaggedCells, gridCells, Finset.mem_filter, Finset.mem_product, Finset.mem_range,
    Finset.mem_erase, Prod.mk.injEq, setCell, ne_eq]
  by_cases h : r = row ∧ c = col
  · obtain ⟨rfl, rfl⟩ := h
    simp
  · simp [h]

theorem handleRightClick_inv2 (s : Minesweeper) (row col : Nat) (h2 : Inv2 s)
    (hr : row < s.rows) (hc : col < s.cols) : Inv2 (handleRightClick s row col) := by
  unfold handleRightClick
  split
  · exact h2
  · split
    · exact h2
    · split
      · rename_i hfl
        refine ⟨?_, ⟨h2.timer.alive, h2.timer.active⟩, h2.closed⟩
        have hmem : (row, col) ∈ flaggedCells s := by
          simp only [flaggedCells, gridCells, Finset.mem_filter, Finset.mem_product,
            Finset.mem_range]
          exact ⟨⟨hr, hc⟩, hfl⟩
        have hpos : 0 < (flaggedCells s).card := Finset.card_pos.mpr ⟨_, hmem⟩
        rw [flaggedCells_unflag, Finset.card_erase_of_mem hmem]
        show s.flaggedCount - 1 = _
        rw [h2.flags]
        omega
      · rename_i hfl
        refine ⟨?_, ⟨h2.timer.alive, h2.timer.active⟩, h2.closed⟩
        have hnot : (row, col) ∉ flaggedCells s := by
          simp only [flaggedCells, Finset.mem_filter]
          exact fun hh => hfl hh.2
        rw [flaggedCells_flag s row col hr hc, Finset.card_insert_of_not_mem hnot]
        show s.flaggedCount + 1 = _
        rw [h2.flags]
        push_cast
        rfl

theorem newGame_inv2 (s : Minesweeper) (h2 : Inv2 s) : Inv2 (newGame s) := by
  have htimer : (newGame s).timerInterval = false := by
    show (stopTimer _).timerInterval = false
    exact stopTimer_timerInterval _
  have halive : (newGame s).activeIntervals = 0 := by
    show (stopTimer _).activeIntervals = 0
    rw [stopTimer_activeIntervals]
    have h0 := h2.timer.alive
    show (if s.timerInterval = true then s.activeIntervals - 1 else s.activeIntervals) = 0
    split
    · rename_i ht
      rw [ht] at h0
      simp only [if_true] at h0
      rw [h0]
    · rename_i ht
      have ht' : s.timerInterval = false := by simpa using ht
      rw [ht'] at h0
      simpa using h0
  have hfirst : (newGame s).firstClick = true := by
    show (stopTimer _).firstClick = true
    unfold stopTimer
    split <;> rfl
  refine ⟨?_, ⟨?_, ?_⟩, ?_⟩
  · show (0 : Int) = _
    have : flaggedCells (newGame s) = ∅ := by
      simp [flaggedCells, newGame, createBoard]
    rw [this]
    rfl
  · rw [halive, htimer]
    rfl
  · rw [htimer, hfirst]
    constructor
    · intro hh; cases hh
    · rintro ⟨hh, _⟩; cases hh
  · intro r _ c _ hrev
    have : (newGame s).revealed r c = false := rfl
    rw [this] at hrev
    cases hrev

theorem new_inv2 : Inv2 Minesweeper.new := by
  refine ⟨?_, ⟨rfl, ?_⟩, ?_⟩
  · show (0 : Int) = _
    have : flaggedCells Minesweeper.new = ∅ := by
      simp [flaggedCells, Minesweeper.new, createBoard]
    rw [this]
    rfl
  · constructor
    · intro hh; cases hh
    · rintro ⟨hh, _⟩; cases hh
  · intro r _ c _ hrev
    cases hrev

/-- Every reachable state satisfies the second invariant. -/
theorem reachable_inv2 (s : Minesweeper) (h : Reachable s) : Inv2 s := by
  induction h with
  | init => exact new_inv2
  | click s s' draws row col hs hr hc hd hclick ih =>
    exact handleCellClick_inv2 s s' draws row col (reachable_inv s hs) ih hr hc hd hclick
  | rightClick s row col _ hr hc ih => exact handleRightClick_inv2 s row col ih hr hc
  | newGame s _ ih => exact newGame_inv2 s ih
  | selectDifficulty s d _ ih =>
    exact newGame_inv2 _ ⟨ih.flags, ⟨ih.timer.alive, ih.timer.active⟩, ih.closed⟩

theorem neighboursRevealed_of_visited (s : Minesweeper) (r c : Nat)
    (h : VisitedRevealed s r c) : NeighboursRevealed s r c := by
  intro r' hr' c' hc' hd
  simp only [chebyshev] at hd
  have hi : (r' : Int) - r ∈ offsets := by
    simp only [offsets, List.mem_cons, List.mem_singleton, List.not_mem_nil, or_false]
    omega
  have hj : (c' : Int) - c ∈ offsets := by
    simp only [offsets, List.mem_cons, List.mem_singleton, List.not_mem_nil, or_false]
    omega
  have := h _ hi _ hj (by omega) (by omega) (by omega) (by omega)
  have e1 : ((r : Int) + ((r' : Int) - r)).toNat = r' := by omega
  have e2 : ((c : Int) + ((c' : Int) - c)).toNat = c' := by omega
  rw [e1, e2] at this
  exact this

theorem floodClosed_of_closedExcept (s : Minesweeper) (h : ClosedExcept s fun _ _ => False) :
    FloodClosed s :=
  fun r hr c hc hrev hz => neighboursRevealed_of_visited s r c (h r hr c hc hrev hz id)

theorem zeroConnected_revealed (s : Minesweeper) (hclosed : FloodClosed s) (r c r' c' : Nat)
    (hrev : s.revealed r c = true) (hconn : ZeroConnected s r c r' c') :
    s.revealed r' c' = true ∧ NeighboursRevealed s r' c' := by
  induction hconn with
  | start hr hc hz => exact ⟨hrev, hclosed _ hr _ hc hrev hz⟩
  | step r' c' r'' c'' _ hr hc hd hz ih =>
    have h := ih.2 r'' hr c'' hc hd
    exact ⟨h, hclosed r'' hr c'' hc h hz⟩

theorem stopTimer_of_off (s : Minesweeper) (h : s.timerInterval = false) : stopTimer s = s := by
  unfold stopTimer
  simp [h]

theorem stopTimer_twice (s : Minesweeper) : stopTimer (stopTimer s) = stopTimer s :=
  stopTimer_of_off _ (stopTimer_timerInterval s)

theorem clickStart_some (s : Minesweeper) (draws : List (Nat × Nat)) (row col : Nat)
    (hterm : s.firstClick = true → (placeMines s draws row col).isSome = true) :
    ∃ s1, clickStart s draws row col = some s1 := by
  unfold clickStart
  cases hfc : s.firstClick with
  | false => exact ⟨s, rfl⟩
  | true =>
    obtain ⟨s0, hs0⟩ := Option.isSome_iff_exists.mp (hterm hfc)
    refine ⟨startTimer { s0 with firstClick := false }, ?_⟩
    rw [hs0]
    rfl

/-- A click on an unflagged grid cell of a non-terminal reachable state returns (on a first
click: when `placeMines` does), the clicked cell is revealed afterwards and the new state is
closed under zero cells. -/
theorem handleCellClick_total (s : Minesweeper) (draws : List (Nat × Nat)) (row col : Nat)
    (hreach : Reachable s) (hstate : ¬ (s.gameState = .won ∨ s.gameState = .lost))
    (hflag : s.flagged row col = false) (hr : row < s.rows) (hc : col < s.cols)
    (hd : DrawsInGrid s draws)
    (hterm : s.firstClick = true → (placeMines s draws row col).isSome = true) :
    ∃ t, handleCellClick s draws row col = some t ∧ Reachable t ∧
      t.revealed row col = true ∧ FloodClosed t := by
  obtain ⟨s1, h1⟩ := clickStart_some s draws row col hterm
  obtain ⟨_, _, t, ht, _, _, hrev, _⟩ :=
    handleCellClick_reveal s draws row col (reachable_inv s hreach) hstate hflag hr hc hd s1 h1
  have hrt : Reachable t := Reachable.click s t draws row col hreach hr hc hd ht
  exact ⟨t, ht, hrt, hrev, floodClosed_of_closedExcept t (reachable_inv2 t hrt).closed⟩

/-! ### Mine placement (C1, C2, C3) -/

/-- C1: started from the all-zero board, whenever `placeMines` terminates on the given random
draws, the excluded (first-clicked) cell does not hold a mine afterwards. -/
theorem placeMines_excluded_not_mine (s s' : Minesweeper) (draws : List (Nat × Nat))
    (excludeRow excludeCol : Nat) (hzero : ∀ r c, s.gameBoard r c = 0)
    (_hrow : excludeRow < s.rows) (_hcol : excludeCol < s.cols)
    (h : placeMines s draws excludeRow excludeCol = some s') :
    s'.gameBoard excludeRow excludeCol ≠ -1 := by
  obtain ⟨t, ht, rfl⟩ := placeMines_some s s' draws excludeRow excludeCol h
  have h0 : s.gameBoard excludeRow excludeCol ≠ -1 := by rw [hzero]; decide
  have h1 := placeMinesLoop_exclude _ _ _ _ _ _ _ ht h0
  exact fun hm => h1 (((fillNumbers_result t).mines _ _).mp hm)

theorem placeMines_excluded_not_mine_witness :
    (∀ r c, Minesweeper.new.gameBoard r c = 0) ∧ 0 < Minesweeper.new.rows ∧
      0 < Minesweeper.new.cols ∧
      ∃ s', placeMines Minesweeper.new [(1, 1), (0, 0), (1, 1), (2, 3), (4, 4), (5, 0)] 0 0 =
        some s' ∧ s'.gameBoard 0 0 ≠ -1 :=
  ⟨fun _ _ => rfl, by decide, by decide, _, eq_some_getD _ Minesweeper.new (by decide),
    placeMines_excluded_not_mine _ _ _ 0 0 (fun _ _ => rfl) (by decide) (by decide)
      (eq_some_getD _ Minesweeper.new (by decide))⟩

/-- C2: started from the all-zero board, whenever `placeMines` terminates on in-grid random
draws, the number of grid positions holding `-1` equals the `mines` value of the preset. -/
theorem placeMines_mine_total (s s' : Minesweeper) (draws : List (Nat × Nat))
    (excludeRow excludeCol : Nat) (hzero : ∀ r c, s.gameBoard r c = 0)
    (_hrow : excludeRow < s.rows) (_hcol : excludeCol < s.cols) (hdraws : DrawsInGrid s draws)
    (h : placeMines s draws excludeRow excludeCol = some s') :
    (mineCells s').card = (difficulties s.currentDifficulty).mines := by
  obtain ⟨t, ht, rfl⟩ := placeMines_some s s' draws excludeRow excludeCol h
  have hres := fillNumbers_result t
  have hcard := placeMinesLoop_card _ _ _ _ _ _ _ hdraws (Nat.zero_le _) ht
  rw [mineCells_congr t _ hres.same.rows hres.same.cols hres.mines]
  rw [mineCells_zero s hzero] at hcard
  simpa using hcard

theorem placeMines_mine_total_witness :
    (∀ r c, Minesweeper.new.gameBoard r c = 0) ∧ 0 < Minesweeper.new.rows ∧
      0 < Minesweeper.new.cols ∧
      DrawsInGrid Minesweeper.new [(1, 1), (0, 0), (1, 1), (2, 3), (4, 4), (5, 0)] ∧
      ∃ s', placeMines Minesweeper.new [(1, 1), (0, 0), (1, 1), (2, 3), (4, 4), (5, 0)] 0 0 =
        some s' ∧ (mineCells s').card = 4 :=
  ⟨fun _ _ => rfl, by decide, by decide, by decide, _,
    eq_some_getD _ Minesweeper.new (by decide),
    placeMines_mine_total _ _ _ 0 0 (fun _ _ => rfl) (by decide) (by decide) (by decide)
      (eq_some_getD _ Minesweeper.new (by decide))⟩

/-- C3: after `placeMines`, every grid cell that is not a mine stores exactly the number of mines
among the grid positions at Chebyshev distance 1 from it, and that number lies in `0..8`. -/
theorem placeMines_counts_exact (s s' : Minesweeper) (draws : List (Nat × Nat))
    (excludeRow excludeCol : Nat) (h : placeMines s draws excludeRow excludeCol = some s')
    (r c : Nat) (hr : r < s'.rows) (hc : c < s'.cols) (hsafe : s'.gameBoard r c ≠ -1) :
    s'.gameBoard r c = (neighbourMineCount s' r c : Int) ∧
      0 ≤ s'.gameBoard r c ∧ s'.gameBoard r c ≤ 8 := by
  obtain ⟨t, _, rfl⟩ := placeMines_some s s' draws excludeRow excludeCol h
  have h1 := fillNumbers_countsExact t r c hr hc hsafe
  have h2 := neighbourMineCount_le (fillNumbers t) r c hsafe
  omega

theorem placeMines_counts_exact_witness :
    ∃ s', placeMines Minesweeper.new [(1, 1), (0, 0), (1, 1), (2, 3), (4, 4), (5, 0)] 0 0 =
        some s' ∧ 1 < s'.rows ∧ 2 < s'.cols ∧ s'.gameBoard 1 2 ≠ -1 ∧
      s'.gameBoard 1 2 = (neighbourMineCount s' 1 2 : Int) ∧
      0 ≤ s'.gameBoard 1 2 ∧ s'.gameBoard 1 2 ≤ 8 :=
  ⟨_, eq_some_getD _ Minesweeper.new (by decide), by decide, by decide, by decide,
    placeMines_counts_exact _ _ _ 0 0 (eq_some_getD _ Minesweeper.new (by decide)) 1 2
      (by decide) (by decide) (by decide)⟩

/-! ### Reveal, win and loss (C4 to C10) -/

set_option maxRecDepth 100000

/-- C4 (the code breaks the claim): on the easy board, a right click on cell (0,1) followed by a
first click on cell (0,0) with mines drawn at (4,4), (4,5), (5,4), (3,5) reaches a state,
still not terminal, in which cell (0,1) carries both the mark `flagged` and the mark `revealed`,
with `flaggedCount` still 1: the flood reveal does not skip flagged neighbours. -/
theorem flood_reveals_flagged_cell :
    ∃ t, handleCellClick (handleRightClick Minesweeper.new 0 1)
        [(4, 4), (4, 5), (5, 4), (3, 5)] 0 0 = some t ∧ Reachable t ∧
      t.flagged 0 1 = true ∧ t.revealed 0 1 = true ∧ t.flaggedCount = 1 ∧
      t.gameState = .waiting :=
  ⟨_, eq_some_getD _ Minesweeper.new (by decide),
    Reachable.click _ _ _ 0 0
      (Reachable.rightClick _ 0 1 Reachable.init (by decide) (by decide))
      (by decide) (by decide) (by decide) (eq_some_getD _ Minesweeper.new (by decide)),
    by decide, by decide, by decide, by decide⟩

/-- C5: in a reachable non-terminal state, a click on a hidden, unflagged, non-mine grid cell
(with the random draws in the grid, and `placeMines` terminating on them when this is the first
click) returns a state `t` in which the clicked cell is revealed, every mark `revealed` of
before is kept, the flags, the flag counter and the dimensions are unchanged (and the grid too,
once the mines are placed), the grid holds `mineCount` mines, `gameState` is `won` or still
`waiting`, and `gameState` is `won` if and only if every non-mine cell is revealed, that is if
and only if the number of revealed non-mine cells is `rows * cols - mineCount`; while the game
is not won no mine is revealed, and a click on a numbered cell reveals, among the non-mine
cells, that cell and no other. -/
theorem reveal_safe_won_iff (s : Minesweeper) (draws : List (Nat × Nat)) (row col : Nat)
    (hreach : Reachable s) (hstate : s.gameState ≠ .won ∧ s.gameState ≠ .lost)
    (hr : row < s.rows) (hc : col < s.cols) (hhidden : s.revealed row col = false)
    (hflag : s.flagged row col = false) (hsafe : s.gameBoard row col ≠ -1)
    (hd : DrawsInGrid s draws)
    (hterm : s.firstClick = true → (placeMines s draws row col).isSome = true) :
    ∃ t, handleCellClick s draws row col = some t ∧
      t.revealed row col = true ∧
      (∀ r c, s.revealed r c = true → t.revealed r c = true) ∧
      (t.flagged = s.flagged ∧ t.flaggedCount = s.flaggedCount ∧ t.rows = s.rows ∧
        t.cols = s.cols ∧ t.mineCount = s.mineCount ∧ t.firstClick = false) ∧
      (s.firstClick = false → t.gameBoard = s.gameBoard) ∧
      (mineCells t).card = t.mineCount ∧ t.gameBoard row col ≠ -1 ∧
      (t.gameState = .won ∨ t.gameState = .waiting) ∧
      (t.gameState = .won ↔ AllSafeRevealed t) ∧
      (t.gameState = .won ↔ (revealedSafeCells t).card = t.rows * t.cols - t.mineCount) ∧
      (t.gameState = .waiting → NoMineRevealed t) ∧
      (t.gameBoard row col > 0 → ∀ r c, t.gameBoard r c ≠ -1 →
        t.revealed r c = setCell s.revealed row col true r c) := by
  have hinv := reachable_inv s hreach
  have hnt : ¬ (s.gameState = .won ∨ s.gameState = .lost) := fun h =>
    h.elim hstate.1 hstate.2
  obtain ⟨s1, h1⟩ := clickStart_some s draws row col hterm
  obtain ⟨hready, _, t, ht, hcell, hframe, hrevt, hres⟩ :=
    handleCellClick_reveal s draws row col hinv hnt hflag hr hc hd s1 h1
  have hsafe1 : s1.gameBoard row col ≠ -1 := by
    cases hfc : s.firstClick with
    | false => rw [hready.later hfc]; exact hsafe
    | true => exact (hready.first hfc).1
  have hhid1 : s1.revealed row col = false := by rw [hready.revealed]; exact hhidden
  obtain ⟨hqt, hiff'⟩ := hres hsafe1
  have hiff := hiff' hhid1
  have hplaced := minesPlaced_frame s1 t hframe hready.placed
  refine ⟨t, ht, hrevt, fun r c h => hframe.mono r c (by rw [hready.revealed]; exact h),
    ⟨by rw [hframe.flagged, hready.flagged], by rw [hframe.flaggedCount, hready.flaggedCount],
      by rw [hframe.rows, hready.rows], by rw [hframe.cols, hready.cols],
      by rw [hframe.mineCount, hready.mineCount], by rw [hframe.firstClick, hready.firstClick]⟩,
    fun hfc => by rw [hframe.gameBoard, hready.later hfc], hplaced.total,
    by rw [hframe.gameBoard]; exact hsafe1, ?_, hiff,
    hiff.trans (allSafeRevealed_iff_card t hplaced.total), hqt.waiting, ?_⟩
  · cases hg : t.gameState with
    | waiting => exact Or.inr rfl
    | won => exact Or.inl rfl
    | playing => exact absurd hg hqt.notPlaying
    | lost => exact absurd hg hqt.notLost
  · intro hpos r c hsafe'
    rw [hframe.gameBoard] at hpos hsafe'
    rw [revealCell_number _ s1 row col hhid1 hsafe1 hpos] at hcell
    cases hcell
    rw [checkWin_safe_revealed (markRevealed s1 row col) r c hsafe', ← hready.revealed]
    rfl

theorem reveal_safe_won_iff_witness :
    (Reachable Minesweeper.new ∧ Minesweeper.new.firstClick = true ∧
      handleCellClick (handleRightClick Minesweeper.new 4 5) exampleDraws 0 0 =
        some exampleGame ∧
      Reachable exampleGame ∧ exampleGame.gameState = .waiting ∧
      (revealedSafeCells exampleGame).card = 31 ∧
      exampleGame.rows * exampleGame.cols - exampleGame.mineCount = 32 ∧
      exampleGame.revealed 5 5 = false ∧ exampleGame.flagged 5 5 = false ∧
      exampleGame.gameBoard 5 5 = 3 ∧
      handleCellClick exampleGame [] 5 5 = some exampleWon ∧
      exampleWon.gameState = .won ∧ (revealedSafeCells exampleWon).card = 32 ∧
      exampleWon.revealed 5 5 = true ∧ AllSafeRevealed exampleWon) ∧
    (∃ t, handleCellClick (handleRightClick Minesweeper.new 4 5) exampleDraws 0 0 = some t ∧
      t.revealed 0 0 = true ∧
      (∀ r c, (handleRightClick Minesweeper.new 4 5).revealed r c = true →
        t.revealed r c = true) ∧
      (t.flagged = (handleRightClick Minesweeper.new 4 5).flagged ∧
        t.flaggedCount = (handleRightClick Minesweeper.new 4 5).flaggedCount ∧
        t.rows = (handleRightClick Minesweeper.new 4 5).rows ∧
        t.cols = (handleRightClick Minesweeper.new 4 5).cols ∧
        t.mineCount = (handleRightClick Minesweeper.new 4 5).mineCount ∧
        t.firstClick = false) ∧
      ((handleRightClick Minesweeper.new 4 5).firstClick = false →
        t.gameBoard = (handleRightClick Minesweeper.new 4 5).gameBoard) ∧
      (mineCells t).card = t.mineCount ∧ t.gameBoard 0 0 ≠ -1 ∧
      (t.gameState = .won ∨ t.gameState = .waiting) ∧
      (t.gameState = .won ↔ AllSafeRevealed t) ∧
      (t.gameState = .won ↔ (revealedSafeCells t).card = t.rows * t.cols - t.mineCount) ∧
      (t.gameState = .waiting → NoMineRevealed t) ∧
      (t.gameBoard 0 0 > 0 → ∀ r c, t.gameBoard r c ≠ -1 →
        t.revealed r c = setCell (handleRightClick Minesweeper.new 4 5).revealed 0 0 true r c)) ∧
    (∃ t, handleCellClick exampleGame [] 5 5 = some t ∧
      t.revealed 5 5 = true ∧
      (∀ r c, exampleGame.revealed r c = true → t.revealed r c = true) ∧
      (t.flagged = exampleGame.flagged ∧ t.flaggedCount = exampleGame.flaggedCount ∧
        t.rows = exampleGame.rows ∧ t.cols = exampleGame.cols ∧
        t.mineCount = exampleGame.mineCount ∧ t.firstClick = false) ∧
      (exampleGame.firstClick = false → t.gameBoard = exampleGame.gameBoard) ∧
      (mineCells t).card = t.mineCount ∧ t.gameBoard 5 5 ≠ -1 ∧
      (t.gameState = .won ∨ t.gameState = .waiting) ∧
      (t.gameState = .won ↔ AllSafeRevealed t) ∧
      (t.gameState = .won ↔ (revealedSafeCells t).card = t.rows * t.cols - t.mineCount) ∧
      (t.gameState = .waiting → NoMineRevealed t) ∧
      (t.gameBoard 5 5 > 0 → ∀ r c, t.gameBoard r c ≠ -1 →
        t.revealed r c = setCell exampleGame.revealed 5 5 true r c)) :=
  have hflagged : Reachable (handleRightClick Minesweeper.new 4 5) :=
    Reachable.rightClick _ 4 5 Reachable.init (by decide) (by decide)
  have hreach : Reachable exampleGame :=
    Reachable.click _ _ exampleDraws 0 0 hflagged (by decide) (by decide) (by decide)
      (eq_some_getD _ Minesweeper.new (by decide))
  ⟨⟨Reachable.init, by decide, eq_some_getD _ Minesweeper.new (by decide), hreach, by decide,
      by decide, by decide, by decide, by decide, by decide,
      eq_some_getD _ Minesweeper.new (by decide), by decide, by decide, by decide, by decide⟩,
    reveal_safe_won_iff (handleRightClick Minesweeper.new 4 5) exampleDraws 0 0 hflagged
      (by decide) (by decide) (by decide) (by decide) (by decide) (by decide) (by decide)
      (fun _ => by decide),
    reveal_safe_won_iff exampleGame [] 5 5 hreach (by decide) (by decide) (by decide)
      (by decide) (by decide) (by decide) (by decide) (fun h => absurd h (by decide))⟩

/-- C6: in a reachable non-terminal state, a click on a hidden, unflagged grid cell holding a
mine returns a state with `gameState` equal to `lost` and the timer handle cleared, in which
every mine cell that is not flagged is revealed, every flagged mine cell is not revealed, and
every non-mine cell keeps its `revealed` mark. -/
theorem reveal_mine_loses (s : Minesweeper) (draws : List (Nat × Nat)) (row col : Nat)
    (hreach : Reachable s) (hstate : s.gameState ≠ .won ∧ s.gameState ≠ .lost)
    (hr : row < s.rows) (hc : col < s.cols) (hhidden : s.revealed row col = false)
    (hflag : s.flagged row col = false) (hmine : s.gameBoard row col = -1) :
    ∃ t, handleCellClick s draws row col = some t ∧ t.gameState = .lost ∧
      t.timerInterval = false ∧
      (∀ r < t.rows, ∀ c < t.cols, t.gameBoard r c = -1 →
        (t.flagged r c = false → t.revealed r c = true) ∧
        (t.flagged r c = true → t.revealed r c = false)) ∧
      (∀ r c, t.gameBoard r c ≠ -1 → t.revealed r c = s.revealed r c) := by
  have hinv := reachable_inv s hreach
  have hnt : ¬ (s.gameState = .won ∨ s.gameState = .lost) := fun h =>
    h.elim hstate.1 hstate.2
  have hw := waiting_of_not_terminal s hinv hnt
  have hfc : s.firstClick = false := by
    cases h : s.firstClick with
    | false => rfl
    | true =>
      have := (hinv.fresh h).1 row col
      rw [this] at hmine
      cases hmine
  have hclick : handleCellClick s draws row col =
      some (gameOver (markRevealed s row col)) := by
    rw [handleCellClick_eq s draws row col hnt hflag]
    simp only [clickStart, hfc, Bool.false_eq_true, if_false, Option.some_bind]
    exact revealCell_mine _ s row col hhidden hmine
  have hf := (revealFrame_mark s row col).followedBy (gameOver_frame (markRevealed s row col))
  have hrevealed := gameOver_revealed (markRevealed s row col)
  refine ⟨_, hclick, gameOver_gameState _, gameOver_timerInterval _, ?_, ?_⟩
  · intro r hr' c hc' hm
    rw [hf.rows] at hr'
    rw [hf.cols] at hc'
    rw [hf.gameBoard] at hm
    rw [hf.flagged]
    constructor
    · intro hfl
      exact (hrevealed r c).mpr (Or.inr ⟨hr', hc', hm, hfl⟩)
    · intro hfl
      cases hb : (gameOver (markRevealed s row col)).revealed r c with
      | false => rfl
      | true =>
        rcases (hrevealed r c).mp hb with h1 | ⟨_, _, _, h4⟩
        · have hne : ¬ (r = row ∧ c = col) := by
            rintro ⟨rfl, rfl⟩
            rw [hflag] at hfl
            cases hfl
          have h2 : s.revealed r c = true := by
            simpa [markRevealed, setCell_other _ _ _ _ _ _ hne] using h1
          rw [hinv.waiting hw r hr' c hc' hm] at h2
          cases h2
        · have h5 : s.flagged r c = false := h4
          rw [hfl] at h5
          cases h5
  · intro r c hsafe
    rw [hf.gameBoard] at hsafe
    have hne : ¬ (r = row ∧ c = col) := by
      rintro ⟨rfl, rfl⟩
      exact hsafe hmine
    have hiff := hrevealed r c
    have hmk : (markRevealed s row col).revealed r c = s.revealed r c :=
      setCell_other _ _ _ _ _ _ hne
    rw [hmk] at hiff
    cases hb : s.revealed r c with
    | true => exact hiff.mpr (Or.inl hb)
    | false =>
      cases hb' : (gameOver (markRevealed s row col)).revealed r c with
      | false => rfl
      | true =>
        rcases hiff.mp hb' with h1 | ⟨_, _, h3, _⟩
        · rw [hb] at h1; cases h1
        · exact absurd h3 hsafe

theorem reveal_mine_loses_witness :
    Reachable exampleGame ∧ (exampleGame.gameState ≠ .won ∧ exampleGame.gameState ≠ .lost) ∧
      4 < exampleGame.rows ∧ 4 < exampleGame.cols ∧ exampleGame.revealed 4 4 = false ∧
      exampleGame.flagged 4 4 = false ∧ exampleGame.gameBoard 4 4 = -1 ∧
      exampleGame.gameBoard 4 5 = -1 ∧ exampleGame.flagged 4 5 = true ∧
      ∃ t, handleCellClick exampleGame [] 4 4 = some t ∧ t.gameState = .lost ∧
        t.timerInterval = false ∧
        (∀ r < t.rows, ∀ c < t.cols, t.gameBoard r c = -1 →
          (t.flagged r c = false → t.revealed r c = true) ∧
          (t.flagged r c = true → t.revealed r c = false)) ∧
        (∀ r c, t.gameBoard r c ≠ -1 → t.revealed r c = exampleGame.revealed r c) :=
  have hreach : Reachable exampleGame :=
    Reachable.click _ _ exampleDraws 0 0
      (Reachable.rightClick _ 4 5 Reachable.init (by decide) (by decide))
      (by decide) (by decide) (by decide) (eq_some_getD _ Minesweeper.new (by decide))
  ⟨hreach, by decide, by decide, by decide, by decide, by decide, by decide, by decide,
    by decide,
    reveal_mine_loses exampleGame [] 4 4 hreach (by decide) (by decide) (by decide)
      (by decide) (by decide) (by decide)⟩

/-- C7 (the code breaks the claim): the first click on cell (0,0) of the fresh easy board, with
the mines drawn by `exampleDraws`, does not end the game, clears `firstClick` and starts the
timer, yet `gameState` is still `waiting` afterwards: no statement of the class ever assigns
`playing`. -/
theorem first_click_stays_waiting :
    Minesweeper.new.gameState = .waiting ∧ Minesweeper.new.firstClick = true ∧
      ∃ t, handleCellClick Minesweeper.new exampleDraws 0 0 = some t ∧
        t.firstClick = false ∧ t.timerInterval = true ∧ t.gameState = .waiting :=
  ⟨by decide, by decide, _, eq_some_getD _ Minesweeper.new (by decide), by decide, by decide,
    by decide⟩

/-- C8 (counterexample): on the fresh easy board the first click on cell (0,0), with the first
mine drawn at (0,1), leaves a mine on the neighbour (0,1) of the clicked cell. -/
theorem first_click_neighbour_mine :
    ∃ t, handleCellClick Minesweeper.new [(0, 1), (1, 1), (5, 5), (3, 3)] 0 0 = some t ∧
      chebyshev 0 0 0 1 = 1 ∧ 0 < t.rows ∧ 1 < t.cols ∧ t.gameBoard 0 1 = -1 :=
  ⟨_, eq_some_getD _ Minesweeper.new (by decide), by decide, by decide, by decide, by decide⟩

/-- C8 (amended): for every preset and every first click on an unflagged grid cell of a fresh
board (all cells zero, not terminal), whenever the click returns, the clicked cell itself does
not hold a mine afterwards. -/
theorem first_click_cell_not_mine (s t : Minesweeper) (draws : List (Nat × Nat)) (row col : Nat)
    (hfirst : s.firstClick = true) (hzero : ∀ r c, s.gameBoard r c = 0)
    (hstate : s.gameState ≠ .won ∧ s.gameState ≠ .lost) (hflag : s.flagged row col = false)
    (hr : row < s.rows) (hc : col < s.cols)
    (h : handleCellClick s draws row col = some t) : t.gameBoard row col ≠ -1 := by
  have hnt : ¬ (s.gameState = .won ∨ s.gameState = .lost) := fun h =>
    h.elim hstate.1 hstate.2
  rw [handleCellClick_eq s draws row col hnt hflag] at h
  obtain ⟨s1, h1, hcell⟩ := Option.bind_eq_some.mp h
  simp only [clickStart, hfirst, if_true, Option.map_eq_some'] at h1
  obtain ⟨s0, hs0, rfl⟩ := h1
  have hf := placeMines_frame s s0 draws row col hs0
  obtain ⟨u, hu, rfl⟩ := placeMines_some s s0 draws row col hs0
  have h0 : s.gameBoard row col ≠ -1 := by rw [hzero]; decide
  have hloop := placeMinesLoop_exclude _ _ _ _ _ _ _ hu h0
  have hex : (fillNumbers u).gameBoard row col ≠ -1 :=
    fun hm => hloop (((fillNumbers_result u).mines _ _).mp hm)
  obtain ⟨t', ht', hframe, _⟩ := revealCell_spec
    (revealFuel (startTimer { fillNumbers u with firstClick := false }))
    (startTimer { fillNumbers u with firstClick := false }) row col
    (by rw [← hf.rows] at hr; exact hr) (by rw [← hf.cols] at hc; exact hc)
    (revealFuel_enough _)
  rw [ht'] at hcell
  cases hcell
  rw [hframe.gameBoard]
  exact hex

theorem first_click_cell_not_mine_witness :
    Minesweeper.new.firstClick = true ∧ (∀ r c, Minesweeper.new.gameBoard r c = 0) ∧
      (Minesweeper.new.gameState ≠ .won ∧ Minesweeper.new.gameState ≠ .lost) ∧
      Minesweeper.new.flagged 0 0 = false ∧ 0 < Minesweeper.new.rows ∧
      0 < Minesweeper.new.cols ∧
      ∃ t, handleCellClick Minesweeper.new [(0, 1), (1, 1), (5, 5), (3, 3)] 0 0 = some t ∧
        t.gameBoard 0 0 ≠ -1 :=
  ⟨by decide, fun _ _ => rfl, by decide, by decide, by decide, by decide, _,
    eq_some_getD _ Minesweeper.new (by decide),
    first_click_cell_not_mine _ _ _ 0 0 (by decide) (fun _ _ => rfl) (by decide) (by decide)
      (by decide) (by decide) (eq_some_getD _ Minesweeper.new (by decide))⟩

/-- C9: a click on a cell carrying the mark `flagged` returns the state unchanged, whatever the
state and the random draws: no field and no mark changes, no mines are placed and `firstClick`
keeps its value. -/
theorem click_flagged_noop (s : Minesweeper) (draws : List (Nat × Nat)) (row col : Nat)
    (hflag : s.flagged row col = true) : handleCellClick s draws row col = some s :=
  handleCellClick_flagged s draws row col hflag

theorem click_flagged_noop_witness :
    (handleRightClick Minesweeper.new 0 0).flagged 0 0 = true ∧
      (handleRightClick Minesweeper.new 0 0).firstClick = true ∧
      handleCellClick (handleRightClick Minesweeper.new 0 0) exampleDraws 0 0 =
        some (handleRightClick Minesweeper.new 0 0) :=
  ⟨by decide, by decide,
    click_flagged_noop (handleRightClick Minesweeper.new 0 0) exampleDraws 0 0 (by decide)⟩

/-- C10: in a state whose `gameState` is `won` or `lost`, a click and a right click on any cell
return the state unchanged, while `newGame` leads back to `waiting`. -/
theorem terminal_absorbs (s : Minesweeper) (draws : List (Nat × Nat)) (row col : Nat)
    (hterm : s.gameState = .won ∨ s.gameState = .lost) :
    handleCellClick s draws row col = some s ∧ handleRightClick s row col = s ∧
      (newGame s).gameState = .waiting := by
  refine ⟨handleCellClick_terminal s draws row col hterm, ?_, ?_⟩
  · unfold handleRightClick
    rw [if_pos hterm]
  · show (stopTimer _).gameState = _
    rw [stopTimer_gameState]

theorem terminal_absorbs_witness :
    exampleLost.gameState = .lost ∧
      handleCellClick exampleLost exampleDraws 0 0 = some exampleLost ∧
      handleRightClick exampleLost 0 0 = exampleLost ∧
      (newGame exampleLost).gameState = .waiting :=
  ⟨by decide, terminal_absorbs exampleLost exampleDraws 0 0 (Or.inr (by decide))⟩

/-! ### Flood, flags, recreation and timer (C11 to C20) -/

/-- C11 (counterexample): on the 6x6 board whose mines are exactly (0,0), (0,1), (3,3) and (5,5),
with the counts filled in by `placeMines`, cell (2,2) stores 1, not 0, and revealing it reveals
that one cell only. -/
theorem scenario_cell_not_zero :
    ∃ t, handleCellClick Minesweeper.new [(0, 0), (0, 1), (3, 3), (5, 5)] 2 2 = some t ∧
      mineCells t = {(0, 0), (0, 1), (3, 3), (5, 5)} ∧ chebyshev 2 2 3 3 = 1 ∧
      t.gameBoard 2 2 = 1 ∧ revealedCells t = {(2, 2)} :=
  ⟨_, eq_some_getD _ Minesweeper.new (by decide), by decide, by decide, by decide, by decide⟩

/-- C11 (amended): on the 6x6 board whose mines are exactly (0,0), (0,1), (3,3) and (5,5), with
the counts filled in by `placeMines`, cell (2,2) stores 1 and revealing it reveals that cell
alone, while cell (2,0) stores 0 and revealing it flood-reveals a region of 19 cells: the zero
cells joined to (2,0) and their numbered border, no mine among them. -/
theorem scenario_flood_region :
    (∃ t, handleCellClick Minesweeper.new [(0, 0), (0, 1), (3, 3), (5, 5)] 2 2 = some t ∧
      mineCells t = {(0, 0), (0, 1), (3, 3), (5, 5)} ∧ t.gameBoard 2 2 = 1 ∧
      revealedCells t = {(2, 2)}) ∧
    ∃ t, handleCellClick Minesweeper.new [(0, 0), (0, 1), (3, 3), (5, 5)] 2 0 = some t ∧
      mineCells t = {(0, 0), (0, 1), (3, 3), (5, 5)} ∧ t.gameBoard 2 0 = 0 ∧
      revealedCells t = {(1, 0), (1, 1), (1, 2), (2, 0), (2, 1), (2, 2), (3, 0), (3, 1), (3, 2),
        (4, 0), (4, 1), (4, 2), (4, 3), (4, 4), (5, 0), (5, 1), (5, 2), (5, 3), (5, 4)} ∧
      1 < (revealedCells t).card ∧ NoMineRevealed t ∧ FloodClosed t ∧
      t.gameState = .waiting :=
  ⟨⟨_, eq_some_getD _ Minesweeper.new (by decide), by decide, by decide, by decide⟩,
    _, eq_some_getD _ Minesweeper.new (by decide), by decide, by decide, by decide, by decide,
    by decide, by decide, by decide⟩

/-- C12: in every reachable state, every revealed grid cell storing 0 has all of its in-grid
neighbours revealed; hence every cell joined to a revealed zero cell by an 8-connected chain of
zero cells is revealed together with all of its in-grid neighbours; and a click on an unflagged
grid cell of a non-terminal reachable state (with the random draws in the grid, and `placeMines`
terminating on them when this is the first click) returns a reachable state in which the
clicked cell is revealed and, when it stores 0, so are the whole 8-connected region of zero
cells containing it and all the in-grid neighbours of that region, its numbered border. -/
theorem flood_closed_under_zero (s : Minesweeper) (hreach : Reachable s) :
    FloodClosed s ∧
    (∀ r c r' c', s.revealed r c = true → ZeroConnected s r c r' c' →
      s.revealed r' c' = true ∧ NeighboursRevealed s r' c') ∧
    (∀ (draws : List (Nat × Nat)) (row col : Nat),
      row < s.rows → col < s.cols → DrawsInGrid s draws →
      ¬ (s.gameState = .won ∨ s.gameState = .lost) → s.flagged row col = false →
      (s.firstClick = true → (placeMines s draws row col).isSome = true) →
      ∃ t, handleCellClick s draws row col = some t ∧ Reachable t ∧
        t.revealed row col = true ∧ FloodClosed t ∧
        ∀ r' c', ZeroConnected t row col r' c' →
          t.revealed r' c' = true ∧ NeighboursRevealed t r' c') := by
  have hclosed := floodClosed_of_closedExcept s (reachable_inv2 s hreach).closed
  refine ⟨hclosed, fun r c r' c' hrev hconn => zeroConnected_revealed s hclosed r c r' c' hrev
    hconn, ?_⟩
  intro draws row col hr hc hd hstate hflag hterm
  obtain ⟨t, ht, hrt, hrev, hct⟩ :=
    handleCellClick_total s draws row col hreach hstate hflag hr hc hd hterm
  exact ⟨t, ht, hrt, hrev, hct, fun r' c' hconn =>
    zeroConnected_revealed t hct row col r' c' hrev hconn⟩

theorem flood_closed_under_zero_witness :
    (Reachable Minesweeper.new ∧
      handleCellClick Minesweeper.new scenarioDraws 2 0 = some scenarioFlood ∧
      mineCells scenarioFlood = {(0, 0), (0, 1), (3, 3), (5, 5)} ∧
      scenarioFlood.gameBoard 2 0 = 0 ∧ scenarioFlood.revealed 2 0 = true ∧
      ZeroConnected scenarioFlood 2 0 5 3 ∧ scenarioFlood.revealed 5 3 = true ∧
      scenarioFlood.gameBoard 4 4 = 2 ∧ chebyshev 5 3 4 4 = 1 ∧
      scenarioFlood.revealed 4 4 = true ∧
      revealedCells scenarioFlood =
        {(1, 0), (1, 1), (1, 2), (2, 0), (2, 1), (2, 2), (3, 0), (3, 1), (3, 2), (4, 0),
          (4, 1), (4, 2), (4, 3), (4, 4), (5, 0), (5, 1), (5, 2), (5, 3), (5, 4)}) ∧
    (∃ t, handleCellClick Minesweeper.new scenarioDraws 2 0 = some t ∧ Reachable t ∧
      t.revealed 2 0 = true ∧ FloodClosed t ∧
      ∀ r' c', ZeroConnected t 2 0 r' c' →
        t.revealed r' c' = true ∧ NeighboursRevealed t r' c') ∧
    FloodClosed Minesweeper.new ∧
    (∀ r c r' c', Minesweeper.new.revealed r c = true → ZeroConnected Minesweeper.new r c r' c' →
      Minesweeper.new.revealed r' c' = true ∧ NeighboursRevealed Minesweeper.new r' c') ∧
    (∀ (draws : List (Nat × Nat)) (row col : Nat),
      row < Minesweeper.new.rows → col < Minesweeper.new.cols →
      DrawsInGrid Minesweeper.new draws →
      ¬ (Minesweeper.new.gameState = .won ∨ Minesweeper.new.gameState = .lost) →
      Minesweeper.new.flagged row col = false →
      (Minesweeper.new.firstClick = true →
        (placeMines Minesweeper.new draws row col).isSome = true) →
      ∃ t, handleCellClick Minesweeper.new draws row col = some t ∧ Reachable t ∧
        t.revealed row col = true ∧ FloodClosed t ∧
        ∀ r' c', ZeroConnected t row col r' c' →
          t.revealed r' c' = true ∧ NeighboursRevealed t r' c') :=
  ⟨⟨Reachable.init, eq_some_getD _ Minesweeper.new (by decide), by decide, by decide,
      by decide,
      ZeroConnected.step 2 0 5 2 5 3
        (ZeroConnected.step 2 0 4 1 5 2
          (ZeroConnected.step 2 0 3 0 4 1
            (ZeroConnected.step 2 0 2 0 3 0
              (ZeroConnected.start 2 0 (by decide) (by decide) (by decide))
              (by decide) (by decide) (by decide) (by decide))
            (by decide) (by decide) (by decide) (by decide))
          (by decide) (by decide) (by decide) (by decide))
        (by decide) (by decide) (by decide) (by decide),
      by decide, by decide, by decide, by decide, by decide⟩,
    (flood_closed_under_zero Minesweeper.new Reachable.init).2.2 scenarioDraws 2 0
      (by decide) (by decide) (by decide) (by decide) (by decide) (fun _ => by decide),
    flood_closed_under_zero Minesweeper.new Reachable.init⟩

/-- C13: in a non-terminal state, a right click on a cell that is not revealed flips its
`flagged` mark, and a second right click on the same cell gives back the original state:
the mark, `flaggedCount` and every other field. -/
theorem right_click_twice (s : Minesweeper) (row col : Nat)
    (hstate : s.gameState ≠ .won ∧ s.gameState ≠ .lost) (hhid : s.revealed row col = false) :
    (handleRightClick s row col).flagged row col = !s.flagged row col ∧
      handleRightClick (handleRightClick s row col) row col = s := by
  have hnt : ¬ (s.gameState = .won ∨ s.gameState = .lost) := fun h =>
    h.elim hstate.1 hstate.2
  cases hfl : s.flagged row col with
  | true =>
    have h1 : handleRightClick s row col =
        { s with flagged := setCell s.flagged row col false,
                 flaggedCount := s.flaggedCount - 1 } := by
      simp [handleRightClick, hnt, hhid, hfl]
    rw [h1]
    refine ⟨setCell_same _ _ _ _, ?_⟩
    have h2 : setCell (setCell s.flagged row col false) row col true = s.flagged := by
      funext r c
      simp only [setCell]
      split
      · rename_i heq
        obtain ⟨rfl, rfl⟩ := heq
        exact hfl.symm
      · rfl
    simp only [handleRightClick, hnt, hhid, setCell_same, if_false, Bool.false_eq_true, h2,
      sub_add_cancel]
  | false =>
    have h1 : handleRightClick s row col =
        { s with flagged := setCell s.flagged row col true,
                 flaggedCount := s.flaggedCount + 1 } := by
      simp [handleRightClick, hnt, hhid, hfl]
    rw [h1]
    refine ⟨setCell_same _ _ _ _, ?_⟩
    have h2 : setCell (setCell s.flagged row col true) row col false = s.flagged := by
      funext r c
      simp only [setCell]
      split
      · rename_i heq
        obtain ⟨rfl, rfl⟩ := heq
        exact hfl.symm
      · rfl
    simp only [handleRightClick, hnt, hhid, setCell_same, if_false, if_true,
      Bool.false_eq_true, h2, add_sub_cancel_right]

theorem right_click_twice_witness :
    (exampleGame.gameState ≠ .won ∧ exampleGame.gameState ≠ .lost) ∧
      exampleGame.revealed 5 5 = false ∧ exampleGame.flagged 5 5 = false ∧
      (handleRightClick exampleGame 5 5).flagged 5 5 = true ∧
      (handleRightClick exampleGame 5 5).flaggedCount = exampleGame.flaggedCount + 1 ∧
      handleRightClick (handleRightClick exampleGame 5 5) 5 5 = exampleGame :=
  ⟨by decide, by decide, by decide,
    (right_click_twice exampleGame 5 5 (by decide) (by decide)).1, by decide,
    (right_click_twice exampleGame 5 5 (by decide) (by decide)).2⟩

/-- C14: in every reachable state `flaggedCount` equals the number of grid cells carrying the
mark `flagged`. -/
theorem flag_counter_exact (s : Minesweeper) (hreach : Reachable s) :
    s.flaggedCount = ((flaggedCells s).card : Int) :=
  (reachable_inv2 s hreach).flags

theorem flag_counter_exact_witness :
    Reachable exampleGame ∧ flaggedCells exampleGame = {(4, 5)} ∧
      exampleGame.flaggedCount = ((flaggedCells exampleGame).card : Int) :=
  have hreach : Reachable exampleGame :=
    Reachable.click _ _ exampleDraws 0 0
      (Reachable.rightClick _ 4 5 Reachable.init (by decide) (by decide))
      (by decide) (by decide) (by decide) (eq_some_getD _ Minesweeper.new (by decide))
  ⟨hreach, by decide, flag_counter_exact exampleGame hreach⟩

/-- C15: in a non-terminal state, a right click on a cell that is neither revealed nor flagged
flags it and raises `flaggedCount` by exactly 1, whatever `flaggedCount` and `mineCount` are,
and the number `updateMineCount` then shows is the signed difference
`mineCount - flaggedCount`. -/
theorem over_flagging_not_clamped (s : Minesweeper) (row col : Nat)
    (hstate : s.gameState ≠ .won ∧ s.gameState ≠ .lost) (hhid : s.revealed row col = false)
    (hfl : s.flagged row col = false) :
    (handleRightClick s row col).flagged row col = true ∧
      (handleRightClick s row col).flaggedCount = s.flaggedCount + 1 ∧
      updateMineCount (handleRightClick s row col) =
        (s.mineCount : Int) - (s.flaggedCount + 1) ∧
      updateMineCount (handleRightClick s row col) =
        ((handleRightClick s row col).mineCount : Int) -
          (handleRightClick s row col).flaggedCount := by
  have hnt : ¬ (s.gameState = .won ∨ s.gameState = .lost) := fun h =>
    h.elim hstate.1 hstate.2
  have h1 : handleRightClick s row col =
      { s with flagged := setCell s.flagged row col true,
               flaggedCount := s.flaggedCount + 1 } := by
    simp [handleRightClick, hnt, hhid, hfl]
  rw [h1]
  exact ⟨setCell_same _ _ _ _, rfl, rfl, rfl⟩

theorem over_flagging_not_clamped_witness :
    (exampleFlagged.gameState ≠ .won ∧ exampleFlagged.gameState ≠ .lost) ∧
      exampleFlagged.revealed 0 4 = false ∧ exampleFlagged.flagged 0 4 = false ∧
      exampleFlagged.mineCount = 4 ∧ exampleFlagged.flaggedCount = 4 ∧
      (handleRightClick exampleFlagged 0 4).flagged 0 4 = true ∧
      (handleRightClick exampleFlagged 0 4).flaggedCount = 5 ∧
      updateMineCount (handleRightClick exampleFlagged 0 4) = -1 :=
  have h := over_flagging_not_clamped exampleFlagged 0 4 (by decide) (by decide) (by decide)
  ⟨by decide, by decide, by decide, by decide, by decide, h.1, h.2.1, h.2.2.1⟩

/-- C16: once the mines are placed (`firstClick` cleared), a click on a cell carrying the mark
`revealed` returns the state unchanged: `flaggedCount`, `gameState`, `gameBoard` and every mark
are as before. -/
theorem click_revealed_noop (s : Minesweeper) (draws : List (Nat × Nat)) (row col : Nat)
    (hplaced : s.firstClick = false) (hrev : s.revealed row col = true) :
    handleCellClick s draws row col = some s := by
  by_cases hstate : s.gameState = .won ∨ s.gameState = .lost
  · exact handleCellClick_terminal s draws row col hstate
  cases hflag : s.flagged row col with
  | true => exact handleCellClick_flagged s draws row col hflag
  | false =>
    rw [handleCellClick_eq s draws row col hstate hflag]
    simp only [clickStart, hplaced, Bool.false_eq_true, if_false, Option.some_bind]
    exact revealCell_revealed _ s row col hrev

theorem click_revealed_noop_witness :
    exampleGame.firstClick = false ∧ exampleGame.revealed 0 0 = true ∧
      handleCellClick exampleGame exampleDraws 0 0 = some exampleGame :=
  ⟨by decide, by decide, click_revealed_noop exampleGame exampleDraws 0 0 (by decide)
    (by decide)⟩

/-- C17: from every state `newGame` yields `gameState = waiting`, `firstClick = true`,
`flaggedCount = 0`, the timer handle cleared, the dimensions and mine count of the current
preset, a grid whose cells are all 0 and no cell revealed or flagged; and the result does not
depend on the grid, the marks, the flag counter, the game state or `firstClick` of the previous
board. -/
theorem newGame_recreates (s : Minesweeper) :
    (newGame s).gameState = .waiting ∧ (newGame s).firstClick = true ∧
      (newGame s).flaggedCount = 0 ∧ (newGame s).timerInterval = false ∧
      (newGame s).currentDifficulty = s.currentDifficulty ∧
      (newGame s).rows = (difficulties s.currentDifficulty).rows ∧
      (newGame s).cols = (difficulties s.currentDifficulty).cols ∧
      (newGame s).mineCount = (difficulties s.currentDifficulty).mines ∧
      (∀ r c, (newGame s).gameBoard r c = 0 ∧ (newGame s).revealed r c = false ∧
        (newGame s).flagged r c = false) ∧
      ∀ (g : Nat → Nat → Int) (rv fl : Nat → Nat → Bool) (n : Int) (gs : GameState)
        (fc : Bool) (rows cols mines : Nat),
        newGame { s with gameBoard := g, revealed := rv, flagged := fl, flaggedCount := n,
                         gameState := gs, firstClick := fc, rows := rows, cols := cols,
                         mineCount := mines } = newGame s := by
  have hst : ∀ u : Minesweeper, (newGame u).gameState = .waiting := fun u => by
    show (stopTimer _).gameState = _
    rw [stopTimer_gameState]
  have hfc : ∀ u : Minesweeper, (newGame u).firstClick = true := fun u => by
    show (stopTimer _).firstClick = true
    unfold stopTimer
    split <;> rfl
  have hti : ∀ u : Minesweeper, (newGame u).timerInterval = false := fun u => by
    show (stopTimer _).timerInterval = false
    exact stopTimer_timerInterval _
  have hcd : ∀ u : Minesweeper, (newGame u).currentDifficulty = u.currentDifficulty :=
    fun u => by
      show (stopTimer _).currentDifficulty = _
      unfold stopTimer
      split <;> rfl
  refine ⟨hst s, hfc s, rfl, hti s, hcd s, ?_, ?_, ?_, fun _ _ => ⟨rfl, rfl, rfl⟩, ?_⟩
  · show (difficulties (stopTimer _).currentDifficulty).rows = _
    unfold stopTimer
    split <;> rfl
  · show (difficulties (stopTimer _).currentDifficulty).cols = _
    unfold stopTimer
    split <;> rfl
  · show (difficulties (stopTimer _).currentDifficulty).mines = _
    unfold stopTimer
    split <;> rfl
  · intro g rv fl n gs fc rows cols mines
    unfold newGame stopTimer createBoard
    cases s.timerInterval <;> rfl

/-- C18: on every board whose non-mine cells hold their exact adjacent-mine counts, with any
`revealed` and `flagged` marks, `revealCell` applied to a non-mine grid cell returns (for every
recursion budget of at least `rows * cols` levels) a state whose `gameState` is the previous
one or `won`, never newly `lost`, and in which a mine that was not revealed before is revealed
only if `gameState` is `won` and the mine is not flagged, as `gameWon` does. -/
theorem flood_never_reaches_mine (s : Minesweeper) (row col fuel : Nat)
    (hcounts : CountsExact s) (hr : row < s.rows) (hc : col < s.cols)
    (hsafe : s.gameBoard row col ≠ -1) (hfuel : s.rows * s.cols ≤ fuel) :
    ∃ t, revealCell fuel s row col = some t ∧
      (t.gameState = s.gameState ∨ t.gameState = .won) ∧
      (s.gameState ≠ .lost → t.gameState ≠ .lost) ∧
      ∀ r < s.rows, ∀ c < s.cols, s.gameBoard r c = -1 → t.revealed r c = true →
        s.revealed r c = true ∨ (t.gameState = .won ∧ s.flagged r c = false) := by
  have hpos : 1 ≤ s.rows * s.cols := Nat.mul_pos (by omega) (by omega)
  obtain ⟨t, ht, _⟩ := revealCell_returns fuel s row col hr hc (by omega)
    (le_trans (hiddenCells_card_le s) hfuel)
  have hnl := revealCell_noLoss fuel s t row col ht hcounts hr hc hsafe
  refine ⟨t, ht, hnl.gameState, fun hne hl => ?_, hnl.mines⟩
  rcases hnl.gameState with h | h
  · exact hne (h ▸ hl)
  · rw [h] at hl
    cases hl

theorem flood_never_reaches_mine_witness :
    CountsExact exampleGame ∧ 5 < exampleGame.rows ∧ 5 < exampleGame.cols ∧
      exampleGame.gameBoard 5 5 ≠ -1 ∧ exampleGame.rows * exampleGame.cols ≤ 36 ∧
      ∃ t, revealCell 36 exampleGame 5 5 = some t ∧
        (t.gameState = exampleGame.gameState ∨ t.gameState = .won) ∧
        (exampleGame.gameState ≠ .lost → t.gameState ≠ .lost) ∧
        ∀ r < exampleGame.rows, ∀ c < exampleGame.cols, exampleGame.gameBoard r c = -1 →
          t.revealed r c = true →
          exampleGame.revealed r c = true ∨
            (t.gameState = .won ∧ exampleGame.flagged r c = false) :=
  have hreach : Reachable exampleGame :=
    Reachable.click _ _ exampleDraws 0 0
      (Reachable.rightClick _ 4 5 Reachable.init (by decide) (by decide))
      (by decide) (by decide) (by decide) (eq_some_getD _ Minesweeper.new (by decide))
  have hcounts : CountsExact exampleGame :=
    ((reachable_inv exampleGame hreach).placed (by decide)).counts
  ⟨hcounts, by decide, by decide, by decide, by decide,
    flood_never_reaches_mine exampleGame 5 5 36 hcounts (by decide) (by decide) (by decide)
      (by decide)⟩

/-- C19: for every grid, every cell values and every `revealed` marks, `revealCell` on a grid
cell returns: there is one result, obtained with every recursion budget of at least
`rows * cols` nested calls, because a nested call is made only on a hidden cell and first marks
it revealed, so that the number of hidden cells bounds the depth. -/
theorem flood_terminates (s : Minesweeper) (row col : Nat) (hr : row < s.rows)
    (hc : col < s.cols) :
    ∃ t, (∀ fuel, s.rows * s.cols ≤ fuel → revealCell fuel s row col = some t) ∧
      (∀ fuel, 1 ≤ fuel → (hiddenCells s).card ≤ fuel → revealCell fuel s row col = some t) ∧
      (hiddenCells t).card ≤ (hiddenCells s).card := by
  have hpos : 1 ≤ s.rows * s.cols := Nat.mul_pos (by omega) (by omega)
  obtain ⟨t, ht, hf⟩ := revealCell_returns (s.rows * s.cols) s row col hr hc hpos
    (hiddenCells_card_le s)
  refine ⟨t, fun fuel hle => revealCell_fuel_le _ fuel hle s t row col ht, ?_,
    hiddenCells_card_frame s t hf⟩
  intro fuel h1 h2
  obtain ⟨t', ht', _⟩ := revealCell_returns fuel s row col hr hc h1 h2
  have h3 := revealCell_fuel_le fuel (max fuel (s.rows * s.cols)) (le_max_left _ _) s t' row col
    ht'
  have h4 := revealCell_fuel_le (s.rows * s.cols) (max fuel (s.rows * s.cols))
    (le_max_right _ _) s t row col ht
  rw [h3] at h4
  cases h4
  exact ht'

theorem flood_terminates_witness :
    0 < Minesweeper.new.rows ∧ 0 < Minesweeper.new.cols ∧
      Minesweeper.new.rows * Minesweeper.new.cols = 36 ∧
      (revealCell 20 Minesweeper.new 0 0).isSome = false ∧
      ∃ t, (∀ fuel, Minesweeper.new.rows * Minesweeper.new.cols ≤ fuel →
          revealCell fuel Minesweeper.new 0 0 = some t) ∧
        (∀ fuel, 1 ≤ fuel → (hiddenCells Minesweeper.new).card ≤ fuel →
          revealCell fuel Minesweeper.new 0 0 = some t) ∧
        (hiddenCells t).card ≤ (hiddenCells Minesweeper.new).card :=
  ⟨by decide, by decide, by decide, by decide,
    flood_terminates Minesweeper.new 0 0 (by decide) (by decide)⟩

/-- C20: in every reachable state the timer handle is set if and only if `firstClick` is cleared
and `gameState` is neither `won` nor `lost`; the handle is the only repeating callback alive;
while `firstClick` is still set (the only situation in which `handleCellClick` calls
`startTimer`) no timer is active; and `stopTimer` applied twice equals `stopTimer` applied
once. -/
theorem timer_never_leaks (s : Minesweeper) (hreach : Reachable s) :
    (s.timerInterval = true ↔
      (s.firstClick = false ∧ s.gameState ≠ .won ∧ s.gameState ≠ .lost)) ∧
      s.activeIntervals = (if s.timerInterval then 1 else 0) ∧
      (s.firstClick = true → s.timerInterval = false ∧ s.activeIntervals = 0) ∧
      stopTimer (stopTimer s) = stopTimer s := by
  have ht := (reachable_inv2 s hreach).timer
  refine ⟨ht.active, ht.alive, fun hfc => ?_, ?_⟩
  · have hoff : s.timerInterval = false := by
      cases hb : s.timerInterval with
      | false => rfl
      | true =>
        have := (ht.active.mp hb).1
        rw [hfc] at this
        cases this
    have h0 := ht.alive
    rw [hoff] at h0
    exact ⟨hoff, by simpa using h0⟩
  · exact stopTimer_twice s

theorem timer_never_leaks_witness :
    Reachable exampleLost ∧ exampleGame.timerInterval = true ∧
      exampleLost.firstClick = false ∧ exampleLost.gameState = .lost ∧
      (exampleLost.timerInterval = true ↔
        (exampleLost.firstClick = false ∧ exampleLost.gameState ≠ .won ∧
          exampleLost.gameState ≠ .lost)) ∧
      exampleLost.activeIntervals = (if exampleLost.timerInterval then 1 else 0) ∧
      (exampleLost.firstClick = true →
        exampleLost.timerInterval = false ∧ exampleLost.activeIntervals = 0) ∧
      stopTimer (stopTimer exampleLost) = stopTimer exampleLost :=
  have hreach : Reachable exampleLost :=
    Reachable.click exampleGame _ [] 4 4
      (Reachable.click _ _ exampleDraws 0 0
        (Reachable.rightClick _ 4 5 Reachable.init (by decide) (by decide))
        (by decide) (by decide) (by decide) (eq_some_getD _ Minesweeper.new (by decide)))
      (by decide) (by decide) (by decide) (eq_some_getD _ Minesweeper.new (by decide))
  ⟨hreach, by decide, by decide, by decide, timer_never_leaks exampleLost hreach⟩

end Minesweeper
